import Mathlib

/-!
Verification development for the stremio-bitmagnet-2 addon core.

The TypeScript source is shallowly embedded: JavaScript strings become
`String`/`List Char`, JS `undefined`-able values become `Option`, the regex
patterns that the code applies are hand-compiled into executable scanning
matchers with the same leftmost-match / ordered-alternation / word-boundary
semantics, and JS truthiness (empty string and 0 are falsy) is modelled
explicitly at the call sites where the source relies on it.  All definitions
are computable and structurally recursive, so they evaluate by rfl / decide.
-/

namespace Bitmagnet

/-! Character and string helpers mirroring the JS primitives the source uses.
All titles handled by the addon are ASCII, and on ASCII these agree with
the JS `toUpperCase`, `\w`, `\s`, `includes`, `trim` behaviour. -/

/-- JS regex `\w` class: `[A-Za-z0-9_]`. -/
def isWordChar (c : Char) : Bool := c.isAlpha || c.isDigit || c = '_'

/-- JS `String.prototype.toUpperCase` (ASCII fragment). -/
def upStr (s : String) : String := String.mk (s.toList.map Char.toUpper)

/-- Case-insensitive character comparison, as under the regex `i` flag (ASCII). -/
def ciEq (a b : Char) : Bool := a.toUpper = b.toUpper

/-- JS regex `\s` class (ASCII fragment). -/
def isJsSpace (c : Char) : Bool := c.isWhitespace

/-- Exact list-prefix test (Bool-valued). -/
def listStartsWith : List Char → List Char → Bool
  | [], _ => true
  | _ :: _, [] => false
  | a :: as, b :: bs => a = b && listStartsWith as bs

/-- Case-insensitive list-prefix test (regex `i` flag). -/
def ciStartsWith : List Char → List Char → Bool
  | [], _ => true
  | _ :: _, [] => false
  | a :: as, b :: bs => ciEq a b && ciStartsWith as bs

/-- Strip an exact literal from the front, returning the remainder. -/
def stripLit : List Char → List Char → Option (List Char)
  | [], l => some l
  | _ :: _, [] => none
  | a :: as, b :: bs => if a = b then stripLit as bs else none

/-- Contiguous-sublist test: JS `String.prototype.includes` over char lists. -/
def listIsSub (sub : List Char) : List Char → Bool
  | [] => listStartsWith sub []
  | l@(_ :: t) => listStartsWith sub l || listIsSub sub t

/-- JS `s.includes(sub)`. -/
def jsIncludes (s sub : String) : Bool := listIsSub sub.toList s.toList

/-- JS global replacement of every hyphen by the empty string. -/
def removeHyphens (s : String) : String :=
  String.mk (s.toList.filter (fun c => c ≠ '-'))

/-- JS `s.split(/[\s-]/)[0]`: the segment before the first whitespace or hyphen. -/
def splitFirstPart (s : String) : String :=
  String.mk (s.toList.takeWhile (fun c => !(isJsSpace c || c = '-')))

/-- JS `String.prototype.trim` (ASCII whitespace). -/
def jsTrim (s : String) : String :=
  String.mk (((s.toList.dropWhile isJsSpace).reverse.dropWhile isJsSpace).reverse)

/-- JS `x || y` for an optional string `x` (both `undefined` and `""` are falsy). -/
def jsOrStr (x : Option String) (y : String) : String :=
  match x with
  | some s => if s = "" then y else s
  | none => y

/-- JS `x || y` for two optional strings. -/
def jsOrStrOpt (x y : Option String) : Option String :=
  match x with
  | some s => if s = "" then y else some s
  | none => y

/-- JS `x || y` for an optional number falling back to a number (0 is falsy). -/
def jsOrNat (x : Option Nat) (y : Nat) : Nat :=
  match x with
  | some n => if n = 0 then y else n
  | none => y

/-- JS `x || y` for two optional numbers (0 is falsy). -/
def jsOrNatOpt (x y : Option Nat) : Option Nat :=
  match x with
  | some n => if n = 0 then y else some n
  | none => y

/-! The data model (src/unnamed/part_001, types.ts). -/

/-- Enum `VideoQualityRank` from types.ts. -/
inductive VideoQualityRank where
  | UHD_BLURAY
  | BLURAY_1080P
  | WEBDL_2160P
  | WEBDL_1080P
  | BLURAY_720P
  | WEBDL_720P
  | HDTV_1080P
  | DVD
  | HDTV_720P
  | SD
  | LOW_QUALITY
  | UNKNOWN
deriving DecidableEq, Fintype

/-- The numeric value attached to each `VideoQualityRank` constructor in types.ts. -/
def rankVal : VideoQualityRank → Int
  | .UHD_BLURAY => 10
  | .BLURAY_1080P => 9
  | .WEBDL_2160P => 8
  | .WEBDL_1080P => 7
  | .BLURAY_720P => 6
  | .WEBDL_720P => 5
  | .HDTV_1080P => 4
  | .DVD => 3
  | .HDTV_720P => 2
  | .SD => 1
  | .LOW_QUALITY => 0
  | .UNKNOWN => -1

/-- Enum `SortPreference` from types.ts. -/
inductive SortPreference where
  | Seeders
  | PreferredLanguage
  | Quality
  | Size
deriving DecidableEq

/-- Interface `ParsedMetadata` from types.ts.  JS `undefined` fields are `none`;
the boolean flags are only ever set to `true` by the parser, so they are plain
`Bool` defaulting to `false`.  `audioCodec` is consolidated to a single string
by the parser before any consumer reads it. -/
structure ParsedMetadata where
  originalTitle : String
  cleanedTitle : Option String := none
  year : Option Nat := none
  resolution : Option String := none
  qualitySource : Option String := none
  videoCodec : Option String := none
  audioCodec : Option String := none
  languages : Option (List String) := none
  isHDR : Bool := false
  is3D : Bool := false
  releaseGroup : Option String := none
  episodeInfo : Option String := none
  rawSize : Option String := none
  calculatedSize : Option Nat := none
  seeders : Option Nat := none
deriving DecidableEq

/-- Interface `BitmagnetTorrent` from types.ts (the fields the core pipeline reads). -/
structure BitmagnetTorrent where
  infoHash : String
  title : String
  seeders : Option Nat := none
  size : Option Nat := none
  source : Option String := none
  videoResolution : Option String := none
  videoCodec : Option String := none
deriving DecidableEq

/-- Interface `StremioStream` from types.ts (the fields used while filtering and sorting). -/
structure StremioStream where
  infoHash : String
  parsedMeta : Option ParsedMetadata := none
  seeders : Option Nat := none
  size : Option Nat := none
deriving DecidableEq

/-- Interface `AddonConfig` from types.ts. -/
structure AddonConfig where
  preferredLanguage : String
  qualitySortOrder : List String
  filterLowQuality : Bool
  minSeeders : Nat
  sortPreference : List SortPreference
deriving DecidableEq

/-! Constants (src/unnamed/part_000, constants.ts). -/

/-- `LOW_QUALITY_TERMS` from constants.ts. -/
def LOW_QUALITY_TERMS : List String :=
  ["CAM", "CAMRIP", "TS", "TELESYNC", "TC", "TELECINE", "SCR", "SCREENER", "DVDSCR", "PDVD"]

/-- `LOW_QUALITY_RESOLUTIONS` from constants.ts. -/
def LOW_QUALITY_RESOLUTIONS : List String := ["480P", "360P", "SD"]

/-- `QUALITY_RANK_MAP` from constants.ts, as an association list in source order. -/
def QUALITY_RANK_MAP : List (String × VideoQualityRank) :=
  [("2160P BLURAY", .UHD_BLURAY), ("4K BLURAY", .UHD_BLURAY),
   ("2160P REMUX", .UHD_BLURAY), ("4K REMUX", .UHD_BLURAY),
   ("2160P WEB-DL", .WEBDL_2160P), ("2160P WEBDL", .WEBDL_2160P),
   ("4K WEB-DL", .WEBDL_2160P), ("4K WEBDL", .WEBDL_2160P),
   ("2160P WEB", .WEBDL_2160P), ("4K WEB", .WEBDL_2160P),
   ("2160P WEBRIP", .WEBDL_2160P), ("4K WEBRIP", .WEBDL_2160P),
   ("1080P BLURAY", .BLURAY_1080P),
   ("1080P REMUX", .BLURAY_1080P),
   ("1080P WEB-DL", .WEBDL_1080P), ("1080P WEBDL", .WEBDL_1080P),
   ("1080P WEB", .WEBDL_1080P), ("1080P WEBRIP", .WEBDL_1080P),
   ("1080P BDRIP", .BLURAY_1080P), ("1080P BRRIP", .BLURAY_1080P),
   ("1080P HDTV", .HDTV_1080P),
   ("720P BLURAY", .BLURAY_720P),
   ("720P REMUX", .BLURAY_720P),
   ("720P WEB-DL", .WEBDL_720P), ("720P WEBDL", .WEBDL_720P),
   ("720P WEB", .WEBDL_720P), ("720P WEBRIP", .WEBDL_720P),
   ("720P BDRIP", .BLURAY_720P), ("720P BRRIP", .BLURAY_720P),
   ("720P HDTV", .HDTV_720P),
   ("DVDRIP", .DVD), ("DVD-R", .DVD),
   ("480P DVD", .DVD), ("576P DVD", .DVD),
   ("480P BDRIP", .DVD), ("576P BDRIP", .DVD),
   ("480P", .SD), ("576P", .SD), ("SD", .SD),
   ("DVDSCR", .LOW_QUALITY), ("SCREENER", .LOW_QUALITY), ("SCR", .LOW_QUALITY),
   ("TS", .LOW_QUALITY), ("TELESYNC", .LOW_QUALITY),
   ("TC", .LOW_QUALITY), ("TELECINE", .LOW_QUALITY),
   ("CAM", .LOW_QUALITY), ("CAMRIP", .LOW_QUALITY),
   ("BLURAY", .BLURAY_1080P),
   ("WEB-DL", .WEBDL_1080P), ("WEBDL", .WEBDL_1080P),
   ("WEB", .WEBDL_1080P), ("WEBRIP", .WEBDL_1080P),
   ("BDRIP", .BLURAY_720P), ("BRRIP", .BLURAY_720P),
   ("HDTV", .HDTV_720P),
   ("UNKNOWN", .UNKNOWN)]

/-- Plain key lookup `QUALITY_RANK_MAP[k]` on the JS object. -/
def rankMapLookup (k : String) : Option VideoQualityRank :=
  (QUALITY_RANK_MAP.find? (fun p => p.1 = k)).map (fun p => p.2)

/-- A JS lookup guarded by truthiness, `if (QUALITY_RANK_MAP[k]) ...`: the enum
value `LOW_QUALITY = 0` is falsy, so a key mapped to it behaves like a missing
key at such call sites. -/
def truthyLookup (k : String) : Option VideoQualityRank :=
  match rankMapLookup k with
  | some q => if rankVal q ≠ 0 then some q else none
  | none => none

/-- `LANGUAGE_MAP` from constants.ts. -/
def LANGUAGE_MAP : List (String × String) :=
  [("ENG", "English"), ("ENGLISH", "English"), ("EN", "English"),
   ("SPA", "Spanish"), ("ESPANOL", "Spanish"), ("ESP", "Spanish"), ("ES", "Spanish"),
   ("FRE", "French"), ("FRENCH", "French"), ("FRA", "French"), ("FR", "French"),
   ("GER", "German"), ("GERMAN", "German"), ("DEU", "German"), ("DE", "German"),
   ("ITA", "Italian"), ("ITALIAN", "Italian"), ("IT", "Italian"),
   ("RUS", "Russian"), ("RUSSIAN", "Russian"), ("RU", "Russian"),
   ("JPN", "Japanese"), ("JAPANESE", "Japanese"), ("JP", "Japanese"),
   ("KOR", "Korean"), ("KOREAN", "Korean"), ("KO", "Korean"),
   ("CHI", "Chinese"), ("CHINESE", "Chinese"), ("ZH", "Chinese"),
   ("HIN", "Hindi"), ("HINDI", "Hindi"), ("HI", "Hindi"),
   ("TAM", "Tamil"), ("TA", "Tamil"),
   ("TEL", "Telugu"), ("TE", "Telugu"),
   ("MAL", "Malayalam"), ("ML", "Malayalam"),
   ("DUALAUDIO", "Dual Audio"), ("MULTIAUDIO", "Multi Audio"),
   ("DUAL", "Dual Audio"), ("MULTI", "Multi Audio"),
   ("VOSTFR", "French (VOSTFR)"), ("SUBFRENCH", "French (Subbed)"),
   ("ENGSUB", "English Subtitles"), ("SUBBED", "Subbed")]

/-- `LANGUAGE_MAP[k]` (every value is a non-empty string, hence truthy). -/
def langMapLookup (k : String) : Option String :=
  (LANGUAGE_MAP.find? (fun p => p.1 = k)).map (fun p => p.2)

/-! Quality classifier `getQualityRank` (src/src/services/stremioFormatter.ts,
lines 4-36), translated branch for branch.  Early `return` statements become
nested matches; direct JS map-truthiness tests go through `truthyLookup`. -/

/-- The first guard of `getQualityRank`: the uppercased source contains one of
the `LOW_QUALITY_TERMS` (each term is uppercased before the containment test). -/
def sourceHasLQTerm (source : Option String) : Bool :=
  match source with
  | some s => LOW_QUALITY_TERMS.any (fun t => jsIncludes s (upStr t))
  | none => false

/-- `getQualityRank` from stremioFormatter.ts. -/
def getQualityRank (pm : Option ParsedMetadata) : VideoQualityRank :=
  match pm with
  | none => .UNKNOWN
  | some m =>
    let resolution : Option String := m.resolution.map upStr
    let source : Option String := m.qualitySource.map upStr
    if sourceHasLQTerm source then .LOW_QUALITY
    else if (match resolution with
             | some r => LOW_QUALITY_RESOLUTIONS.contains r
             | none => false) then
      if (match source with
          | some s => jsIncludes s ("DVD") || jsIncludes s ("BDRIP") || jsIncludes s ("BRRIP")
          | none => false) then .DVD else .SD
    else
      let combinedHit : Option VideoQualityRank :=
        match resolution, source with
        | some r, some s =>
          match truthyLookup (r ++ " " ++ removeHyphens s) with
          | some q => some q
          | none => truthyLookup (r ++ " " ++ splitFirstPart s)
        | _, _ => none
      match combinedHit with
      | some q => q
      | none =>
        match (match source with
               | some s => truthyLookup (removeHyphens s)
               | none => none) with
        | some q => q
        | none =>
          match (match resolution with
                 | some r => truthyLookup r
                 | none => none) with
          | some q => q
          | none => .UNKNOWN

/-! Stream pipeline (src/unnamed/part_002, addonService.ts `processStreamRequest`). -/

/-- One `Map.prototype.set` step of `new Map(rawResults.map(item => ...))`:
if the key is already present its value is replaced in place (the key keeps its
original position), otherwise the entry is appended. -/
def mapSet (acc : List (String × BitmagnetTorrent)) (k : String) (v : BitmagnetTorrent) :
    List (String × BitmagnetTorrent) :=
  if acc.any (fun p => p.1 = k) then
    acc.map (fun p => if p.1 = k then (k, v) else p)
  else acc ++ [(k, v)]

/-- Line 104 of addonService.ts: `Array.from(new Map(rawResults.map(item =>
[item.infoHash, item])).values())`. -/
def uniqueResults (rawResults : List BitmagnetTorrent) : List BitmagnetTorrent :=
  (rawResults.foldl (fun acc t => mapSet acc t.infoHash t) []).map (fun p => p.2)

/-- Lines 137-140 of addonService.ts: enrich the parsed metadata with the
authoritative Bitmagnet fields (JS `||`, so an empty string also falls through). -/
def enrichMeta (t : BitmagnetTorrent) (m : ParsedMetadata) : ParsedMetadata :=
  { m with
    resolution := jsOrStrOpt t.videoResolution m.resolution
    videoCodec := jsOrStrOpt t.videoCodec m.videoCodec
    qualitySource := jsOrStrOpt t.source m.qualitySource }

/-- Lines 142-151 of addonService.ts: build the candidate stream record from a
torrent and its parsed metadata (after enrichment).  `torrent.seeders ||
parsedMeta.seeders || 0` uses JS truthiness, so a literal 0 also falls through. -/
def buildStream (t : BitmagnetTorrent) (pm : ParsedMetadata) : StremioStream :=
  let m := enrichMeta t pm
  { infoHash := t.infoHash
    parsedMeta := some { m with
      seeders := some (jsOrNat t.seeders (jsOrNat m.seeders 0))
      calculatedSize := jsOrNatOpt t.size m.calculatedSize }
    seeders := some (jsOrNat t.seeders (jsOrNat m.seeders 0))
    size := jsOrNatOpt t.size m.calculatedSize }

/-- Lines 156-159 of addonService.ts: the minimum-seeders filter
(`(stream.seeders || 0) >= config.minSeeders`, applied only when the threshold
is positive). -/
def minSeedersFilter (cfg : AddonConfig) (streams : List StremioStream) : List StremioStream :=
  if cfg.minSeeders > 0 then
    streams.filter (fun s => s.seeders.getD 0 ≥ cfg.minSeeders)
  else streams

/-- The keep-predicate of the low-quality elimination (lines 164-175 of
addonService.ts), returning `false` exactly when the candidate is dropped. -/
def lqKeep (s : StremioStream) : Bool :=
  let rank := getQualityRank s.parsedMeta
  if rank = .LOW_QUALITY || rank = .UNKNOWN then false
  else
    let sourceUpper : Option String := (s.parsedMeta.bind (fun m => m.qualitySource)).map upStr
    if (match sourceUpper with
        | some su => LOW_QUALITY_TERMS.any (fun t => jsIncludes su t)
        | none => false) then false
    else
      let resUpper : Option String := (s.parsedMeta.bind (fun m => m.resolution)).map upStr
      if (match resUpper with
          | some ru => LOW_QUALITY_RESOLUTIONS.contains ru && rankVal rank < rankVal .DVD
          | none => false) then false
      else true

/-- Lines 161-178 of addonService.ts: low-quality elimination.  It runs only
under `config.filterLowQuality` on a non-empty list, and only when some
candidate has rank at least `HDTV_720P`. -/
def lowQualityElim (cfg : AddonConfig) (streams : List StremioStream) : List StremioStream :=
  if cfg.filterLowQuality ∧ streams.length > 0 then
    if streams.any (fun s => rankVal (getQualityRank s.parsedMeta) ≥ rankVal .HDTV_720P) then
      streams.filter lqKeep
    else streams
  else streams

/-- JS `Array.prototype.indexOf` helper: index of the first occurrence starting
the count at `i`, or -1. -/
def jsIndexOfGo (x : String) : Nat → List String → Int
  | _, [] => -1
  | i, y :: t => if y = x then (i : Int) else jsIndexOfGo x (i + 1) t

/-- JS `l.indexOf(x)` over a string array. -/
def jsIndexOf (l : List String) (x : String) : Int := jsIndexOfGo x 0 l

/-- The `SortPreference.Seeders` comparison (lines 185-187 of addonService.ts). -/
def cmpSeeders (a b : StremioStream) : Int :=
  (b.seeders.getD 0 : Int) - (a.seeders.getD 0 : Int)

/-- The `SortPreference.PreferredLanguage` comparison (lines 188-204 of
addonService.ts). -/
def cmpLanguage (cfg : AddonConfig) (a b : StremioStream) : Int :=
  let langA := upStr (String.intercalate " " ((a.parsedMeta.bind (fun m => m.languages)).getD []))
  let langB := upStr (String.intercalate " " ((b.parsedMeta.bind (fun m => m.languages)).getD []))
  let prefLangUpper := upStr cfg.preferredLanguage
  let aHasExact := ((a.parsedMeta.bind (fun m => m.languages)).getD []).map upStr
    |>.contains prefLangUpper
  let bHasExact := ((b.parsedMeta.bind (fun m => m.languages)).getD []).map upStr
    |>.contains prefLangUpper
  if aHasExact ∧ ¬ bHasExact then -1
  else if ¬ aHasExact ∧ bHasExact then 1
  else
    let aHas := jsIncludes langA prefLangUpper
    let bHas := jsIncludes langB prefLangUpper
    if aHas ∧ ¬ bHas then -1
    else if ¬ aHas ∧ bHas then 1
    else 0

/-- The `SortPreference.Quality` comparison (lines 205-221 of addonService.ts),
including the `qualitySortOrder` tie-break: a missing resolution becomes the
literal string UNKNOWN before the `indexOf` lookups. -/
def cmpQuality (cfg : AddonConfig) (a b : StremioStream) : Int :=
  let comparison := rankVal (getQualityRank b.parsedMeta) - rankVal (getQualityRank a.parsedMeta)
  match a.parsedMeta, b.parsedMeta with
  | some ma, some mb =>
    if comparison = 0 then
      let resAUpper := jsOrStr (ma.resolution.map upStr) ("UNKNOWN")
      let resBUpper := jsOrStr (mb.resolution.map upStr) ("UNKNOWN")
      let resAIndex := jsIndexOf cfg.qualitySortOrder resAUpper
      let resBIndex := jsIndexOf cfg.qualitySortOrder resBUpper
      if resAIndex ≠ -1 ∧ resBIndex ≠ -1 then resAIndex - resBIndex
      else if resAIndex ≠ -1 then -1
      else if resBIndex ≠ -1 then 1
      else 0
    else comparison
  | _, _ => comparison

/-- The `SortPreference.Size` comparison (lines 223-225 of addonService.ts). -/
def cmpSize (a b : StremioStream) : Int :=
  (b.size.getD 0 : Int) - (a.size.getD 0 : Int)

/-- One preference key dispatch of the sort comparator. -/
def cmpByPreference (cfg : AddonConfig) (p : SortPreference) (a b : StremioStream) : Int :=
  match p with
  | .Seeders => cmpSeeders a b
  | .PreferredLanguage => cmpLanguage cfg a b
  | .Quality => cmpQuality cfg a b
  | .Size => cmpSize a b

/-- The loop body of the comparator at lines 181-230 of addonService.ts:
iterate the configured preferences and stop at the first non-zero comparison. -/
def compareStreamsGo (cfg : AddonConfig) (a b : StremioStream) : List SortPreference → Int
  | [] => 0
  | p :: rest =>
    let c := cmpByPreference cfg p a b
    if c ≠ 0 then c else compareStreamsGo cfg a b rest

/-- The full sort comparator passed to `parsedStreams.sort`. -/
def compareStreams (cfg : AddonConfig) (a b : StremioStream) : Int :=
  compareStreamsGo cfg a b cfg.sortPreference

/-! Episode matcher (lines 113-133 of addonService.ts).  The two regexes built
there are hand-compiled: both are unanchored, case-insensitive, and the season
and episode numbers each appear as a (padded|plain) alternation. -/

/-- JS `String(n)`: decimal digits of a natural number. -/
def natDigits (n : Nat) : List Char := (toString n).toList

/-- JS `String(n).padStart(2, "0")`. -/
def pad2 (n : Nat) : List Char :=
  if (natDigits n).length < 2 then '0' :: natDigits n else natDigits n

/-- The regex class `[Ss]`. -/
def isSChar (c : Char) : Bool := c = 'S' || c = 's'

/-- The regex class `[Ee]`. -/
def isEChar (c : Char) : Bool := c = 'E' || c = 'e'

/-- After `[Ee]`, the `(paddedEpisode|plainEpisode)` alternation (no trailing
boundary: the episode digits only need to start the remainder). -/
def episodePart (e : Nat) (r : List Char) : Bool :=
  match r with
  | [] => false
  | c :: r2 => isEChar c && (listStartsWith (pad2 e) r2 || listStartsWith (natDigits e) r2)

/-- One season alternative followed by the `[Ee](...)` episode part. -/
def seasonThen (sd : List Char) (e : Nat) (r : List Char) : Bool :=
  match stripLit sd r with
  | some r2 => episodePart e r2
  | none => false

/-- Attempt of the full SE pattern at one position of the text. -/
def seMatchAt (s e : Nat) (l : List Char) : Bool :=
  match l with
  | [] => false
  | c :: rest => isSChar c && (seasonThen (pad2 s) e rest || seasonThen (natDigits s) e rest)

/-- The negative lookahead of the season-pack pattern: the next character (if
any) is neither a digit nor `[Ee]`. -/
def packLookaheadOK : List Char → Bool
  | [] => true
  | c :: _ => !(c.isDigit || isEChar c)

/-- Attempt of the season-pack pattern at one position of the text. -/
def packMatchAt (s : Nat) (l : List Char) : Bool :=
  match l with
  | [] => false
  | c :: rest =>
    isSChar c &&
      ((match stripLit (pad2 s) rest with
        | some r2 => packLookaheadOK r2
        | none => false) ||
       (match stripLit (natDigits s) rest with
        | some r2 => packLookaheadOK r2
        | none => false))

/-- `RegExp.prototype.test`: scan every start position. -/
def scanTest (p : List Char → Bool) : List Char → Bool
  | [] => false
  | l@(_ :: rest) => p l || scanTest p rest

/-- `sePattern.test(episodeInfo)` for the regex built at line 117. -/
def sePatternTest (s e : Nat) (info : String) : Bool :=
  scanTest (seMatchAt s e) info.toList

/-- `seasonPackPattern.test(episodeInfo)` for the regex built at line 118. -/
def seasonPackTest (s : Nat) (info : String) : Bool :=
  scanTest (packMatchAt s) info.toList

/-- Lines 113-133 of addonService.ts: for a series request with season and
episode, a candidate with no `episodeInfo` passes; one with `episodeInfo` is
kept exactly when one of the two regexes matches. -/
def episodeAccept (epInfo : Option String) (s e : Nat) : Bool :=
  match epInfo with
  | none => true
  | some info => sePatternTest s e info || seasonPackTest s info

/-- Modelled from the claim C5 wording: the episode info, compared as a whole
token, equals an explicit `S<season>E<episode>` form (season and episode each
with or without zero-padding) or a bare season-pack form `S<season>` (which,
as a whole token, is trivially not followed by an episode marker or digit). -/
def seExactForms (s e : Nat) : List String :=
  [String.mk ('S' :: (pad2 s ++ 'E' :: pad2 e)),
   String.mk ('S' :: (pad2 s ++ 'E' :: natDigits e)),
   String.mk ('S' :: (natDigits s ++ 'E' :: pad2 e)),
   String.mk ('S' :: (natDigits s ++ 'E' :: natDigits e))]

/-- Modelled from the claim C5 wording: the season-pack whole-token forms. -/
def packExactForms (s : Nat) : List String :=
  [String.mk ('S' :: pad2 s), String.mk ('S' :: natDigits s)]

/-- Modelled from the claim C5 wording: acceptance as the claim states it. -/
def episodeAcceptSpec (epInfo : Option String) (s e : Nat) : Bool :=
  match epInfo with
  | none => true
  | some info =>
    (seExactForms s e).contains (upStr info) || (packExactForms s).contains (upStr info)

/-! Hand-compiled matcher for the word-bounded alternation regexes of
constants.ts (RESOLUTION, QUALITY_SOURCE, HDR): a pattern of the shape
backslash-b ( lit1 | lit2 | ... ) backslash-b under the `i` flag.  A JS regex
tries the alternatives in order at each position, moving left to right, and an
alternative succeeds only if both boundaries hold around it. -/

/-- Word boundary between the previous character and the first character of the
literal (out-of-string counts as non-word). -/
def boundaryBeforeOK (prevWord : Bool) (alt : List Char) : Bool :=
  match alt with
  | [] => true
  | c :: _ => prevWord ≠ isWordChar c

/-- Word boundary after the literal: the word-ness of its last character must
differ from that of the following character (end-of-string is non-word).
Case-insensitive matching never changes word-ness, so the literal's own last
character can be consulted. -/
def boundaryAfterOK (alt : List Char) (rest : List Char) : Bool :=
  (match alt.getLast? with
   | some c => isWordChar c
   | none => false) ≠
  (match rest with
   | c :: _ => isWordChar c
   | [] => false)

/-- Try the alternatives in order at a single position; on success return the
matched text as it appears in the subject (JS `match[0]` keeps the subject's
case). -/
def altMatchAt (alts : List (List Char)) (prevWord : Bool) (l : List Char) : Option (List Char) :=
  alts.findSome? (fun alt =>
    if alt.isEmpty then none
    else if boundaryBeforeOK prevWord alt && ciStartsWith alt l &&
            boundaryAfterOK alt (l.drop alt.length) then
      some (l.take alt.length)
    else none)

/-- Leftmost-match scan, carrying the word-ness of the previous character
(start-of-string counts as non-word). -/
def scanFirst (alts : List (List Char)) : Bool → List Char → Option (List Char)
  | _, [] => none
  | prevWord, c :: rest =>
    match altMatchAt alts prevWord (c :: rest) with
    | some v => some v
    | none => scanFirst alts (isWordChar c) rest

/-- First match of a word-bounded alternation regex in a string (the result of
`regex.exec(s)?.[0]`, or of `s.match(regex)?.[0]` for a global regex). -/
def regexFirstMatch (alts : List String) (s : String) : Option String :=
  (scanFirst (alts.map (fun a => a.toList)) false s.toList).map String.mk

/-- The alternatives of `REGEX_PATTERNS.RESOLUTION` in source order. -/
def RESOLUTION_ALTS : List String :=
  ["4K", "2160p", "1080p", "720p", "576p", "480p", "360p", "SD"]

/-- The alternatives of `REGEX_PATTERNS.QUALITY_SOURCE` in source order. -/
def QUALITY_SOURCE_ALTS : List String :=
  ["BluRay", "Blu-Ray", "BDRip", "BRRip", "WEB-DL", "WEBDL", "WEB-Rip", "WEBRIP", "WEB",
   "HDRip", "DVDRip", "DVD-R", "DVDScr", "SCREENER", "SCR", "TS", "TELESYNC", "TC",
   "TELECINE", "CAM", "HDTV", "PDTV", "SATRip", "DSR", "REMUX", "Complete", "REPACK",
   "PROPER"]

/-- The alternatives of `REGEX_PATTERNS.HDR`, expanded in the backtracking order
of `HDR10(?:Plus|+)? | HDR | Dolby Vision | DV | HLG` (the optional group is
greedy, so HDR10Plus is tried before HDR10+ before HDR10). -/
def HDR_ALTS : List String :=
  ["HDR10Plus", "HDR10+", "HDR10", "HDR", "Dolby Vision", "DV", "HLG"]

/-- The word-ness of the character preceding position `i` of the text
(position 0 has no predecessor, which counts as non-word). -/
def prevWordAt (l : List Char) (i : Nat) : Bool :=
  match i with
  | 0 => false
  | j + 1 =>
    match l.get? j with
    | some c => isWordChar c
    | none => false

/-- The match attempt of a word-bounded alternation regex at position `i` of a
string, used to state leftmost-match characterizations. -/
def tokenMatchAt (alts : List String) (s : String) (i : Nat) : Option (List Char) :=
  altMatchAt (alts.map (fun a => a.toList)) (prevWordAt s.toList i) (s.toList.drop i)

/-! The per-field extraction steps of `parseTorrentTitle`
(src/src/services/bitmagnetService.ts).  The helper `extractFirstMatch`
(lines 232-244) computes the first regex match over the work title, uppercases
it (the default transform), and assigns it only when the field is not already
set (the JS guard is a truthiness test; the parser never stores an empty
string in these fields). -/

/-- The resolution pass (line 278, `extractFirstMatch(REGEX_PATTERNS.RESOLUTION,
"resolution")`). -/
def extractResolution (workTitle : String) (m : ParsedMetadata) : ParsedMetadata :=
  match regexFirstMatch RESOLUTION_ALTS workTitle with
  | none => m
  | some v => if m.resolution.isSome then m else { m with resolution := some (upStr v) }

/-- The quality-source pass (line 281, `extractFirstMatch(REGEX_PATTERNS.QUALITY_SOURCE,
"qualitySource")`). -/
def extractQualitySource (workTitle : String) (m : ParsedMetadata) : ParsedMetadata :=
  match regexFirstMatch QUALITY_SOURCE_ALTS workTitle with
  | none => m
  | some v => if m.qualitySource.isSome then m else { m with qualitySource := some (upStr v) }

/-! Title normalizer `cleanTitle` (src/src/services/bitmagnetService.ts,
lines 171-220) and the pieces of regex machinery it uses.  Each global
`String.prototype.replace` is compiled to a left-to-right scan over the
original character list; after a match the scan resumes right after the
matched span (a pending skip counter keeps the recursion structural). -/

/-- Separators accepted before a removed term: the class of `.`-space-`_`-`-`-`[`. -/
def isTermLeadSep (c : Char) : Bool :=
  c = '.' || isJsSpace c || c = '_' || c = '-' || c = '['

/-- Separators accepted after a removed term: the class of `.`-space-`_`-`-`-`]`. -/
def isTermTailSep (c : Char) : Bool :=
  c = '.' || isJsSpace c || c = '_' || c = '-' || c = ']'

/-- The tail of the term-removal regex: one tail separator, or end of string. -/
def tailSepLen : List Char → Option Nat
  | [] => some 0
  | c :: _ => if isTermTailSep c then some 1 else none

/-- Length of a match of the term-removal regex at one position.  The pattern
anchors either with the zero-width start-of-string (tried first, only at
position 0) or by consuming one lead separator; the term itself matches
literally and case-insensitively (the JS code escapes it into a literal).
An empty term never occurs (the caller filters falsy values); the guard only
keeps this function total. -/
def termMatchLen (term : List Char) (atStart : Bool) (l : List Char) : Option Nat :=
  if term.isEmpty then none
  else
    let direct : Option Nat :=
      if atStart && ciStartsWith term l then
        (tailSepLen (l.drop term.length)).map (fun k => term.length + k)
      else none
    match direct with
    | some n => some n
    | none =>
      match l with
      | [] => none
      | c :: rest =>
        if isTermLeadSep c && ciStartsWith term rest then
          (tailSepLen (rest.drop term.length)).map (fun k => 1 + term.length + k)
        else none

/-- Global replacement by one space for the term-removal regex; `skip` counts
characters of an already-emitted match still to be consumed. -/
def termReplaceGo (term : List Char) : Bool → Nat → List Char → List Char
  | _, _, [] => []
  | _, k + 1, _ :: rest => termReplaceGo term false k rest
  | atStart, 0, c :: rest =>
    match termMatchLen term atStart (c :: rest) with
    | some n => ' ' :: termReplaceGo term false (n - 1) rest
    | none => c :: termReplaceGo term false 0 rest

/-- Lines 192-195 of bitmagnetService.ts: remove one already-parsed term from
the title (global, case-insensitive, separator-bounded), replacing by a space. -/
def replaceTermTokens (term : String) (s : String) : String :=
  String.mk (termReplaceGo term.toList true 0 s.toList)

/-- The literal members of `COMMON_TRASH_TERMS` (constants.ts lines 131-139),
each wrapped by the builder into a word-bounded global case-insensitive regex. -/
def trashLiterals : List String :=
  ["REQ", "REQUEST", "RARBG", "PROPER", "REPACK", "REAL", "FINAL",
   "UNRATED", "DIRECTORS CUT", "EXTENDED", "LIMITED", "CRITERION", "COLLECTION",
   "INTERNAL", "COMPLETE", "SUBBED", "SUBS", "SUBTITLE", "SUBTITLES"]

/-- Global replacement by one space for a word-bounded literal
(the trash-term regexes).  Every trash literal starts and ends with a letter,
so both boundaries reduce to a non-word neighbour. -/
def wordReplaceGo (term : List Char) : Bool → Nat → List Char → List Char
  | _, _, [] => []
  | _, k + 1, c :: rest => wordReplaceGo term (isWordChar c) k rest
  | prevWord, 0, c :: rest =>
    if !term.isEmpty && boundaryBeforeOK prevWord term && ciStartsWith term (c :: rest) &&
       boundaryAfterOK term ((c :: rest).drop term.length) then
      ' ' :: wordReplaceGo term (isWordChar c) (term.length - 1) rest
    else c :: wordReplaceGo term (isWordChar c) 0 rest

/-- One word-bounded trash-term replacement pass. -/
def wordReplace (term : String) (s : String) : String :=
  String.mk (wordReplaceGo term.toList false 0 s.toList)

/-- The character class of the bracketed-tag trash regex content. -/
def isBracketContentChar (c : Char) : Bool :=
  c.isAlpha || c.isDigit || isJsSpace c || c = '-'

/-- Global replacement by one space for the bracketed-tag trash regex: an
opening bracket, one or more content-class characters, a closing bracket. -/
def bracketGo : Nat → List Char → List Char
  | _, [] => []
  | k + 1, _ :: rest => bracketGo k rest
  | 0, c :: rest =>
    if c = '[' then
      let run := rest.takeWhile isBracketContentChar
      match rest.drop run.length with
      | c2 :: _ =>
        if !run.isEmpty && c2 = ']' then ' ' :: bracketGo (run.length + 1) rest
        else c :: bracketGo 0 rest
      | [] => c :: bracketGo 0 rest
    else c :: bracketGo 0 rest

/-- The bracketed-tag trash replacement pass. -/
def bracketReplace (s : String) : String := String.mk (bracketGo 0 s.toList)

/-- Lines 199-202 of bitmagnetService.ts: apply every trash regex in array
order (the literals first, the bracketed-tag pattern last). -/
def removeTrashTerms (s : String) : String :=
  bracketReplace (trashLiterals.foldl (fun acc t => wordReplace t acc) s)

/-- Run-collapsing replacement for the dot-underscore-hyphen class. -/
def collapseSepsGo : Bool → List Char → List Char
  | _, [] => []
  | prevSep, c :: rest =>
    if c = '.' || c = '_' || c = '-' then
      if prevSep then collapseSepsGo true rest else ' ' :: collapseSepsGo true rest
    else c :: collapseSepsGo false rest

/-- Run-collapsing replacement for whitespace. -/
def collapseWsGo : Bool → List Char → List Char
  | _, [] => []
  | prevWs, c :: rest =>
    if isJsSpace c then
      if prevWs then collapseWsGo true rest else ' ' :: collapseWsGo true rest
    else c :: collapseWsGo false rest

/-- Line 205 (and 213) of bitmagnetService.ts: collapse separator runs into
single spaces, collapse whitespace runs, then trim. -/
def finalCleanup (s : String) : String :=
  jsTrim (String.mk (collapseWsGo false (collapseSepsGo false s.toList)))

/-- Lines 175-188 of bitmagnetService.ts: the exact terms to strip, in array
order, with the JS `filter(Boolean)` dropping absent and empty entries. -/
def toRemoveExact (m : ParsedMetadata) : List String :=
  (([m.year.map (fun y => toString y),
     m.resolution,
     m.qualitySource,
     m.videoCodec,
     if m.isHDR then some (jsOrStr (regexFirstMatch HDR_ALTS m.originalTitle) ("HDR")) else none,
     if m.is3D then some ("3D") else none,
     m.episodeInfo,
     m.releaseGroup].filterMap id) ++
   ((m.languages.getD []).filter
     (fun lang => lang.length ≤ 3 || (langMapLookup (upStr lang)).isSome))).filter
    (fun t => t ≠ "")

/-- Lines 172-205 of bitmagnetService.ts: the primary cleaning result
(before the implausibility fallback). -/
def primaryClean (title : String) (m : ParsedMetadata) : String :=
  finalCleanup (removeTrashTerms ((toRemoveExact m).foldl (fun acc t => replaceTermTokens t acc) title))

/-- The regex test of line 208: the cleaned string is exactly four digits. -/
def isFourDigits (s : String) : Bool :=
  s.length = 4 && s.toList.all (fun c => c.isDigit)

/-- Line 208 of bitmagnetService.ts: the fallback trigger. -/
def fallbackCond (cleaned title : String) : Bool :=
  (cleaned.length < 5 && title.length > 10) || isFourDigits cleaned

/-- The class of the optional separators in the fallback-stripping regexes
(the class of `.`-whitespace-`_`-`-`). -/
def isOptSep (c : Char) : Bool := c = '.' || isJsSpace c || c = '_' || c = '-'

/-- Length of a match of the fallback-stripping regex (an optional separator,
the literal term, an optional separator; both separators greedy) at one
position.  If the greedy leading separator leaves no term match, the engine
backtracks to matching the term directly. -/
def optSepMatchLen (term : List Char) (l : List Char) : Option Nat :=
  if term.isEmpty then none
  else
    let withSep : Option Nat :=
      match l with
      | c :: rest =>
        if isOptSep c && ciStartsWith term rest then
          some (1 + term.length +
            (match rest.drop term.length with
             | c2 :: _ => if isOptSep c2 then 1 else 0
             | [] => 0))
        else none
      | [] => none
    match withSep with
    | some n => some n
    | none =>
      if ciStartsWith term l then
        some (term.length +
          (match l.drop term.length with
           | c2 :: _ => if isOptSep c2 then 1 else 0
           | [] => 0))
      else none

/-- Global replacement for the fallback-stripping regex, emitting `rep` for
every match. -/
def optSepReplaceGo (term : List Char) (rep : List Char) : Nat → List Char → List Char
  | _, [] => []
  | k + 1, _ :: rest => optSepReplaceGo term rep k rest
  | 0, c :: rest =>
    match optSepMatchLen term (c :: rest) with
    | some n => rep ++ optSepReplaceGo term rep (n - 1) rest
    | none => c :: optSepReplaceGo term rep 0 rest

/-- Global fallback-stripping replacement (lines 211-212 use a space as the
replacement, line 215 the empty string). -/
def optSepReplace (term : String) (rep : String) (s : String) : String :=
  String.mk (optSepReplaceGo term.toList rep.toList 0 s.toList)

/-- `cleanTitle` from bitmagnetService.ts (lines 171-220), assembled from the
pieces above.  The numeric `year` and the `releaseGroup` pass JS truthiness
tests before being stripped in the fallback (0 and the empty string are falsy). -/
def cleanTitle (title : String) (m : ParsedMetadata) (originalSearchTitle : Option String) :
    String :=
  let cleaned := primaryClean title m
  if fallbackCond cleaned title then
    let fb0 := jsOrStr originalSearchTitle title
    let fb1 := match m.year with
      | some y => if y = 0 then fb0 else optSepReplace (toString y) (" ") fb0
      | none => fb0
    let fb2 := match m.releaseGroup with
      | some g => if g = "" then fb1 else optSepReplace g (" ") fb1
      | none => fb1
    let fallbackCleaned := finalCleanup fb2
    if fallbackCleaned = "" && (match m.releaseGroup with
                                | some g => g != ""
                                | none => false) then
      jsTrim (optSepReplace ((m.releaseGroup).getD ("")) ("") title)
    else jsOrStr (some fallbackCleaned) (jsTrim title)
  else cleaned

/-! Size parsing (src/src/services/bitmagnetService.ts, lines 154-169).
The numeric value is modelled as a rational; for the decimal literals and
power-of-two multiplications involved, JS double arithmetic is exact and
agrees with the rational result. -/

/-- The unit alternatives of the size regex, in source order. -/
def sizeUnits : List String := ["TB", "GB", "MB", "KB", "TiB", "GiB", "MiB", "KiB"]

/-- Decimal digits to a natural number. -/
def digitsToNat (l : List Char) : Nat :=
  l.foldl (fun a c => 10 * a + (c.toNat - ('0').toNat)) 0

/-- `parseFloat` of a matched `digits(.digits)?` group, as an exact rational. -/
def decimalToRat (ip : List Char) (fp : Option (List Char)) : ℚ :=
  (digitsToNat ip : ℚ) +
    match fp with
    | some f => (digitsToNat f : ℚ) / ((10 : ℚ) ^ f.length)
    | none => 0

/-- Match attempt of the size regex at one position: one or more digits, an
optional dot-digits fraction, optional whitespace, then the first unit
alternative that matches case-insensitively.  (The greedy digit and whitespace
runs never need to backtrack here because no shorter run can let the following
pattern part match.)  Returns the integer digits, the fraction digits, and the
uppercased unit. -/
def sizeMatchAt (l : List Char) : Option (List Char × Option (List Char) × String) :=
  let ip := l.takeWhile (fun c => c.isDigit)
  if ip.isEmpty then none
  else
    let r1 := l.drop ip.length
    let fpr : Option (List Char) × List Char :=
      match r1 with
      | '.' :: t =>
        let f := t.takeWhile (fun c => c.isDigit)
        if f.isEmpty then (none, r1) else (some f, t.drop f.length)
      | _ => (none, r1)
    let r3 := fpr.2.dropWhile isJsSpace
    match sizeUnits.find? (fun u => ciStartsWith u.toList r3) with
    | some u => some (ip, fpr.1, upStr u)
    | none => none

/-- Leftmost match of the size regex. -/
def sizeScan : List Char → Option (List Char × Option (List Char) × String)
  | [] => none
  | l@(_ :: rest) =>
    match sizeMatchAt l with
    | some r => some r
    | none => sizeScan rest

/-- `parseSize` from bitmagnetService.ts: leftmost match of the size regex,
then a `startsWith`-dispatched binary multiplier. -/
def parseSize (sizeStr : String) : Option ℚ :=
  match sizeScan sizeStr.toList with
  | none => none
  | some (ip, fp, unit) =>
    let value := decimalToRat ip fp
    if listStartsWith ("KB").toList unit.toList || listStartsWith ("KIB").toList unit.toList then
      some (value * 1024)
    else if listStartsWith ("MB").toList unit.toList || listStartsWith ("MIB").toList unit.toList then
      some (value * 1024 * 1024)
    else if listStartsWith ("GB").toList unit.toList || listStartsWith ("GIB").toList unit.toList then
      some (value * 1024 * 1024 * 1024)
    else if listStartsWith ("TB").toList unit.toList || listStartsWith ("TIB").toList unit.toList then
      some (value * 1024 * 1024 * 1024 * 1024)
    else none

/-- The binary-multiple tier a unit string belongs to (1 for kilo up to 4 for
tera), used to state claim C9. -/
def unitTier (unit : String) : Nat :=
  if unit = "KB" ∨ unit = "KIB" then 1
  else if unit = "MB" ∨ unit = "MIB" then 2
  else if unit = "GB" ∨ unit = "GIB" then 3
  else if unit = "TB" ∨ unit = "TIB" then 4
  else 0

/-! Concrete instances used by the per-claim counterexamples and witnesses. -/

/-- Two raw records sharing an infoHash, first-seen instance. -/
def dupTorrentA : BitmagnetTorrent := { infoHash := "h", title := "A" }

/-- Two raw records sharing an infoHash, last-seen instance. -/
def dupTorrentB : BitmagnetTorrent := { infoHash := "h", title := "B" }

/-- A sparse metadata record for an all-separator title. -/
def sepOnlyMeta : ParsedMetadata := { originalTitle := "..." }

/-- A trash-only title longer than ten characters. -/
def trashTitle : String := "REQ.REQ.REQ.REQ"

/-- The metadata record the parser would build for `trashTitle` before
cleaning (no extractable attributes). -/
def trashMeta : ParsedMetadata := { originalTitle := "REQ.REQ.REQ.REQ" }

/-- A CAM release candidate (parsed from a title such as Movie.2023.CAM.XViD). -/
def camStream : StremioStream :=
  { infoHash := "cam"
    parsedMeta := some { originalTitle := "Movie.2023.CAM.XViD"
                         year := some 2023
                         qualitySource := some ("CAM")
                         videoCodec := some ("XVID")
                         seeders := some 10 }
    seeders := some 10 }

/-- A 1080p BluRay sibling candidate. -/
def blurayStream : StremioStream :=
  { infoHash := "blu"
    parsedMeta := some { originalTitle := "Movie.2023.1080p.BluRay"
                         year := some 2023
                         resolution := some ("1080P")
                         qualitySource := some ("BLURAY")
                         seeders := some 5 }
    seeders := some 5 }

/-- A configuration with the low-quality filter enabled. -/
def cfgFilterOn : AddonConfig :=
  { preferredLanguage := "ENG"
    qualitySortOrder := ["2160P", "1080P", "720P", "480P", "SD", "SCR", "CAM", "UNKNOWN"]
    filterLowQuality := true
    minSeeders := 0
    sortPreference := [.Seeders, .PreferredLanguage, .Quality] }

/-- A metadata record whose source contains a low-quality marker. -/
def hdCamMeta : ParsedMetadata :=
  { originalTitle := "Movie 2023 1080p HDCAM"
    resolution := some ("1080p")
    qualitySource := some ("HDCAM") }

/-- Quality-sort configuration for the C8 counterexample: UNKNOWN appears in
the tie-break list ahead of a real resolution (as in the default server
configuration, which ends with UNKNOWN). -/
def cfgQualityCex : AddonConfig :=
  { preferredLanguage := "ENG"
    qualitySortOrder := ["UNKNOWN", "720P"]
    filterLowQuality := true
    minSeeders := 0
    sortPreference := [.Quality] }

/-- A candidate with no parsed resolution whose rank is HDTV_720P. -/
def noResStream : StremioStream :=
  { infoHash := "nores"
    parsedMeta := some { originalTitle := "Show HDTV", qualitySource := some ("HDTV") } }

/-- A candidate with resolution 720p whose rank is HDTV_720P. -/
def res720Stream : StremioStream :=
  { infoHash := "r720"
    parsedMeta := some { originalTitle := "Show 720p HDTV"
                         resolution := some ("720p")
                         qualitySource := some ("HDTV") } }

/-- Quality-sort configuration for the C8 witness. -/
def cfgQualityW : AddonConfig :=
  { preferredLanguage := "ENG"
    qualitySortOrder := ["4K", "2160P"]
    filterLowQuality := true
    minSeeders := 0
    sortPreference := [.Quality] }

/-- A 2160p WEB candidate (rank WEBDL_2160P). -/
def webStream2160 : StremioStream :=
  { infoHash := "w2160"
    parsedMeta := some { originalTitle := "Movie 2160p WEB"
                         resolution := some ("2160p")
                         qualitySource := some ("WEB") } }

/-- A 4K WEB candidate (rank WEBDL_2160P). -/
def webStream4K : StremioStream :=
  { infoHash := "w4k"
    parsedMeta := some { originalTitle := "Movie 4K WEB"
                         resolution := some ("4K")
                         qualitySource := some ("WEB") } }

/-- A raw record supplying no seeder data. -/
def noSeedTorrent : BitmagnetTorrent := { infoHash := "ns", title := "Movie 1080p WEB" }

/-- Parsed metadata without any seeder guess (the parser never sets one). -/
def noSeedMeta : ParsedMetadata := { originalTitle := "Movie 1080p WEB" }

/-- A configuration demanding at least one seeder. -/
def cfgMinSeed1 : AddonConfig :=
  { preferredLanguage := "ENG"
    qualitySortOrder := ["2160P", "1080P", "720P"]
    filterLowQuality := false
    minSeeders := 1
    sortPreference := [.Seeders] }

/-! Definitions used to state the claims (spec-side formulations, each named
after the claim that uses it). -/

/-- Modelled from the claim C4 wording: a candidate survives the active
low-quality elimination iff its rank is neither LOW_QUALITY nor UNKNOWN, and
it does not combine a low-quality resolution with a rank below DVD. -/
def lqKeepSpec (s : StremioStream) : Bool :=
  let rank := getQualityRank s.parsedMeta
  !(rank = .LOW_QUALITY || rank = .UNKNOWN) &&
  !((match (s.parsedMeta.bind (fun m => m.resolution)).map upStr with
     | some ru => LOW_QUALITY_RESOLUTIONS.contains ru
     | none => false) && rankVal rank < rankVal .DVD)

/-- The infoHash keys of a raw-result list in order of first occurrence
(used to state the amended claim C1). -/
def firstKeys (ts : List BitmagnetTorrent) : List String :=
  ts.foldl (fun acc t => if t.infoHash ∈ acc then acc else acc ++ [t.infoHash]) []

/-- The last raw record of a list carrying a given infoHash (used to state the
amended claim C1). -/
def lastWith (ts : List BitmagnetTorrent) (h : String) : Option BitmagnetTorrent :=
  (ts.filter (fun t => t.infoHash = h)).getLast?

/-- The entry lookup on the association list backing the JS `Map`. -/
def entryLookup (acc : List (String × BitmagnetTorrent)) (h : String) :
    Option BitmagnetTorrent :=
  (acc.find? (fun p => p.1 = h)).map (fun p => p.2)

/-- Word-ness of the character before position `i`, with an explicit context
bit for position 0 (generalizes `prevWordAt` for the scan induction). -/
def ctxWordAt (pw : Bool) (l : List Char) (i : Nat) : Bool :=
  match i with
  | 0 => pw
  | j + 1 =>
    match l.get? j with
    | some c => isWordChar c
    | none => false

/-! Theorems.  Auxiliary lemmas come first; each audited claim is then settled
by one theorem (with its witness or counterexample where required). -/

/-- C3 counterexample: the claim orders all HDTV tiers below DVD and all
WEB-DL tiers below all BluRay tiers, but in types.ts `HDTV_1080P = 4` is above
`DVD = 3` and `WEBDL_1080P = 7` is above `BLURAY_720P = 6`. -/
theorem c3_counterexample :
    rankVal .DVD < rankVal .HDTV_1080P ∧ rankVal .BLURAY_720P < rankVal .WEBDL_1080P := by
  decide

/-- C3 (amended): `VideoQualityRank` is a total order over exactly 12 distinct
numeric values, running UNKNOWN < LOW_QUALITY < SD < HDTV_720P < DVD <
HDTV_1080P < WEBDL_720P < BLURAY_720P < WEBDL_1080P < WEBDL_2160P <
BLURAY_1080P < UHD_BLURAY; in particular UNKNOWN sorts below LOW_QUALITY,
but HDTV_1080P sorts above DVD and the 2160p WEB-DL tier sits between the
720p and 1080p BluRay tiers. -/
theorem c3_rank_order_amended :
    Fintype.card VideoQualityRank = 12 ∧
    (Finset.univ.image (fun r : VideoQualityRank => rankVal r)).card = 12 ∧
    rankVal .UNKNOWN < rankVal .LOW_QUALITY ∧
    rankVal .LOW_QUALITY < rankVal .SD ∧
    rankVal .SD < rankVal .HDTV_720P ∧
    rankVal .HDTV_720P < rankVal .DVD ∧
    rankVal .DVD < rankVal .HDTV_1080P ∧
    rankVal .HDTV_1080P < rankVal .WEBDL_720P ∧
    rankVal .WEBDL_720P < rankVal .BLURAY_720P ∧
    rankVal .BLURAY_720P < rankVal .WEBDL_1080P ∧
    rankVal .WEBDL_1080P < rankVal .WEBDL_2160P ∧
    rankVal .WEBDL_2160P < rankVal .BLURAY_1080P ∧
    rankVal .BLURAY_1080P < rankVal .UHD_BLURAY := by
  decide

/-- The eight marker terms named by claim C6 are all members of
`LOW_QUALITY_TERMS` and are fixed by uppercasing. -/
theorem low_quality_terms_facts :
    ∀ t ∈ ["CAM", "TS", "TELESYNC", "TC", "TELECINE", "SCR", "SCREENER", "DVDSCR"],
      t ∈ LOW_QUALITY_TERMS ∧ upStr t = t := by
  decide

/-- C6: whenever the quality-source string contains one of the low-quality
marker terms as a case-insensitive substring, `getQualityRank` returns
LOW_QUALITY, whatever the resolution field holds (the first guard fires before
any resolution is consulted). -/
theorem c6_low_quality_source_overrides (m : ParsedMetadata) (src t : String)
    (hsrc : m.qualitySource = some src)
    (ht : t ∈ ["CAM", "TS", "TELESYNC", "TC", "TELECINE", "SCR", "SCREENER", "DVDSCR"])
    (hsub : jsIncludes (upStr src) (upStr t) = true) :
    getQualityRank (some m) = .LOW_QUALITY := by
  obtain ⟨htm, _⟩ := low_quality_terms_facts t ht
  have hany : sourceHasLQTerm (m.qualitySource.map upStr) = true := by
    rw [hsrc]
    exact List.any_eq_true.mpr ⟨t, htm, hsub⟩
  simp only [getQualityRank, hany, if_true]

/-- C6 witness: the concrete source HDCAM contains the marker CAM, and the
classifier indeed returns LOW_QUALITY despite the 1080p resolution. -/
theorem c6_witness :
    hdCamMeta.qualitySource = some ("HDCAM") ∧
    ("CAM") ∈ ["CAM", "TS", "TELESYNC", "TC", "TELECINE", "SCR", "SCREENER", "DVDSCR"] ∧
    jsIncludes (upStr ("HDCAM")) (upStr ("CAM")) = true ∧
    getQualityRank (some hdCamMeta) = .LOW_QUALITY :=
  ⟨rfl, by decide, by decide,
    c6_low_quality_source_overrides hdCamMeta ("HDCAM") ("CAM") rfl (by decide) (by decide)⟩

/-- C2 counterexample: the title consisting of three dots is non-empty, yet
`cleanTitle` returns the empty string for it: the primary cleaning collapses
it to nothing, and the fallback guard requires the input to exceed ten
characters, so it never fires. -/
theorem c2_counterexample :
    ("..." : String) ≠ "" ∧ cleanTitle ("...") sepOnlyMeta none = "" := by
  decide

/-- C2 (amended): the no-empty-output guarantee holds on the fallback path but
not universally.  When the fallback triggers, no search title is passed, and
the metadata supplies neither a year nor a release group, the result is
non-empty provided the title itself has a non-whitespace character; titles of
at most ten characters whose cleaning empties them (or all-separator titles)
can produce the empty string. -/
theorem c2_fallback_nonempty (title : String) (m : ParsedMetadata)
    (hy : m.year = none) (hg : m.releaseGroup = none)
    (hfb : fallbackCond (primaryClean title m) title = true)
    (ht : jsTrim title ≠ "") :
    cleanTitle title m none ≠ "" := by
  by_cases hF : finalCleanup title = ""
  · simp [cleanTitle, hfb, hy, hg, jsOrStr, hF, ht]
  · simp [cleanTitle, hfb, hy, hg, jsOrStr, hF, ht]

/-- C2 witness: a trash-only fifteen-character title cleans to nothing, the
fallback triggers, and the amended guarantee yields a non-empty result. -/
theorem c2_fallback_nonempty_witness :
    trashMeta.year = none ∧ trashMeta.releaseGroup = none ∧
    fallbackCond (primaryClean trashTitle trashMeta) trashTitle = true ∧
    jsTrim trashTitle ≠ "" ∧
    cleanTitle trashTitle trashMeta none ≠ "" :=
  ⟨rfl, rfl, by decide, by decide,
    c2_fallback_nonempty trashTitle trashMeta rfl rfl (by decide) (by decide)⟩

/-- C10: every candidate built by the pipeline carries a numeric seeders value;
when neither the raw record nor the parsed metadata supplies one it defaults
to 0, and such a candidate never survives a minimum-seeders filter with a
positive threshold. -/
theorem c10_seeders_default (t : BitmagnetTorrent) (pm : ParsedMetadata)
    (cfg : AddonConfig) (streams : List StremioStream) :
    (buildStream t pm).seeders.isSome = true ∧
    (t.seeders = none → pm.seeders = none →
      (buildStream t pm).seeders = some 0 ∧
      (cfg.minSeeders > 0 → buildStream t pm ∉ minSeedersFilter cfg streams)) := by
  refine ⟨rfl, fun hts hps => ?_⟩
  have hseed : (buildStream t pm).seeders = some 0 := by
    simp [buildStream, enrichMeta, hts, hps, jsOrNat]
  refine ⟨hseed, fun hmin hmem => ?_⟩
  unfold minSeedersFilter at hmem
  rw [if_pos hmin] at hmem
  have hp := (List.mem_filter.mp hmem).2
  rw [hseed] at hp
  simp at hp
  omega

/-- C10 witness: a raw record with no seeder data builds a candidate with
seeders 0, which a threshold of 1 removes. -/
theorem c10_witness :
    noSeedTorrent.seeders = none ∧ noSeedMeta.seeders = none ∧ cfgMinSeed1.minSeeders > 0 ∧
    (buildStream noSeedTorrent noSeedMeta).seeders = some 0 ∧
    buildStream noSeedTorrent noSeedMeta ∉
      minSeedersFilter cfgMinSeed1 [buildStream noSeedTorrent noSeedMeta] :=
  ⟨rfl, rfl, by decide,
    ((c10_seeders_default noSeedTorrent noSeedMeta cfgMinSeed1
        [buildStream noSeedTorrent noSeedMeta]).2 rfl rfl).1,
    ((c10_seeders_default noSeedTorrent noSeedMeta cfgMinSeed1
        [buildStream noSeedTorrent noSeedMeta]).2 rfl rfl).2 (by decide)⟩

/-- A successful size-regex match always reports one of the eight units,
uppercased. -/
theorem sizeMatchAt_unit (l ip : List Char) (fp : Option (List Char)) (u : String)
    (h : sizeMatchAt l = some (ip, fp, u)) : ∃ u0 ∈ sizeUnits, u = upStr u0 := by
  simp only [sizeMatchAt] at h
  split at h
  · cases h
  · split at h
    · rename_i u0 hfind
      refine ⟨u0, List.mem_of_find?_eq_some hfind, ?_⟩
      injection h with h1
      cases h1
      rfl
    · cases h

/-- The scanning version of `sizeMatchAt_unit`. -/
theorem sizeScan_unit : ∀ (l ip : List Char) (fp : Option (List Char)) (u : String),
    sizeScan l = some (ip, fp, u) → ∃ u0 ∈ sizeUnits, u = upStr u0 := by
  intro l
  induction l with
  | nil => intro ip fp u h; cases h
  | cons c rest ih =>
    intro ip fp u h
    rw [sizeScan] at h
    cases hm : sizeMatchAt (c :: rest) with
    | some r =>
      rw [hm] at h
      injection h with h1
      exact sizeMatchAt_unit (c :: rest) ip fp u (by rw [hm, h1])
    | none =>
      rw [hm] at h
      exact ih ip fp u h

/-- C9: size parsing converts every matched number-unit pair to bytes with a
1024-based multiple, the same tier for KB/MB/GB/TB as for their iB variants;
in particular 1.5 GiB parses to 1.5 x 1024^3 bytes and 700MB to 700 x 1024^2
bytes. -/
theorem c9_size_binary_multiples :
    (∀ (s : String) (ip : List Char) (fp : Option (List Char)) (u : String),
      sizeScan s.toList = some (ip, fp, u) →
      1 ≤ unitTier u ∧ unitTier u ≤ 4 ∧
      parseSize s = some (decimalToRat ip fp * 1024 ^ unitTier u)) ∧
    unitTier ("KB") = unitTier ("KIB") ∧ unitTier ("MB") = unitTier ("MIB") ∧
    unitTier ("GB") = unitTier ("GIB") ∧ unitTier ("TB") = unitTier ("TIB") ∧
    parseSize ("1.5 GiB") = some ((1610612736 : ℚ)) ∧
    parseSize ("700MB") = some ((734003200 : ℚ)) := by
  refine ⟨?_, by decide, by decide, by decide, by decide, ?_, ?_⟩
  · intro s ip fp u hscan
    obtain ⟨u0, hu0, rfl⟩ := sizeScan_unit s.toList ip fp u hscan
    fin_cases hu0
    · have hu : upStr ("TB") = ("TB" : String) := by decide
      rw [hu] at hscan ⊢
      refine ⟨by decide, by decide, ?_⟩
      unfold parseSize
      rw [hscan]
      have c1 : (listStartsWith ("KB").toList ("TB").toList ||
                 listStartsWith ("KIB").toList ("TB").toList) = false := by decide
      have c2 : (listStartsWith ("MB").toList ("TB").toList ||
                 listStartsWith ("MIB").toList ("TB").toList) = false := by decide
      have c3 : (listStartsWith ("GB").toList ("TB").toList ||
                 listStartsWith ("GIB").toList ("TB").toList) = false := by decide
      have c4 : (listStartsWith ("TB").toList ("TB").toList ||
                 listStartsWith ("TIB").toList ("TB").toList) = true := by decide
      have ht : unitTier ("TB") = 4 := by decide
      simp only [c1, c2, c3, c4, if_false, if_true, Bool.false_eq_true, ht]
      norm_num
      try ring
    · have hu : upStr ("GB") = ("GB" : String) := by decide
      rw [hu] at hscan ⊢
      refine ⟨by decide, by decide, ?_⟩
      unfold parseSize
      rw [hscan]
      have c1 : (listStartsWith ("KB").toList ("GB").toList ||
                 listStartsWith ("KIB").toList ("GB").toList) = false := by decide
      have c2 : (listStartsWith ("MB").toList ("GB").toList ||
                 listStartsWith ("MIB").toList ("GB").toList) = false := by decide
      have c3 : (listStartsWith ("GB").toList ("GB").toList ||
                 listStartsWith ("GIB").toList ("GB").toList) = true := by decide
      have ht : unitTier ("GB") = 3 := by decide
      simp only [c1, c2, c3, if_false, if_true, Bool.false_eq_true, ht]
      norm_num
      try ring
    · have hu : upStr ("MB") = ("MB" : String) := by decide
      rw [hu] at hscan ⊢
      refine ⟨by decide, by decide, ?_⟩
      unfold parseSize
      rw [hscan]
      have c1 : (listStartsWith ("KB").toList ("MB").toList ||
                 listStartsWith ("KIB").toList ("MB").toList) = false := by decide
      have c2 : (listStartsWith ("MB").toList ("MB").toList ||
                 listStartsWith ("MIB").toList ("MB").toList) = true := by decide
      have ht : unitTier ("MB") = 2 := by decide
      simp only [c1, c2, if_false, if_true, Bool.false_eq_true, ht]
      norm_num
      try ring
    · have hu : upStr ("KB") = ("KB" : String) := by decide
      rw [hu] at hscan ⊢
      refine ⟨by decide, by decide, ?_⟩
      unfold parseSize
      rw [hscan]
      have c1 : (listStartsWith ("KB").toList ("KB").toList ||
                 listStartsWith ("KIB").toList ("KB").toList) = true := by decide
      have ht : unitTier ("KB") = 1 := by decide
      simp only [c1, if_true, ht]
      norm_num
      try ring
    · have hu : upStr ("TiB") = ("TIB" : String) := by decide
      rw [hu] at hscan ⊢
      refine ⟨by decide, by decide, ?_⟩
      unfold parseSize
      rw [hscan]
      have c1 : (listStartsWith ("KB").toList ("TIB").toList ||
                 listStartsWith ("KIB").toList ("TIB").toList) = false := by decide
      have c2 : (listStartsWith ("MB").toList ("TIB").toList ||
                 listStartsWith ("MIB").toList ("TIB").toList) = false := by decide
      have c3 : (listStartsWith ("GB").toList ("TIB").toList ||
                 listStartsWith ("GIB").toList ("TIB").toList) = false := by decide
      have c4 : (listStartsWith ("TB").toList ("TIB").toList ||
                 listStartsWith ("TIB").toList ("TIB").toList) = true := by decide
      have ht : unitTier ("TIB") = 4 := by decide
      simp only [c1, c2, c3, c4, if_false, if_true, Bool.false_eq_true, ht]
      norm_num
      try ring
    · have hu : upStr ("GiB") = ("GIB" : String) := by decide
      rw [hu] at hscan ⊢
      refine ⟨by decide, by decide, ?_⟩
      unfold parseSize
      rw [hscan]
      have c1 : (listStartsWith ("KB").toList ("GIB").toList ||
                 listStartsWith ("KIB").toList ("GIB").toList) = false := by decide
      have c2 : (listStartsWith ("MB").toList ("GIB").toList ||
                 listStartsWith ("MIB").toList ("GIB").toList) = false := by decide
      have c3 : (listStartsWith ("GB").toList ("GIB").toList ||
                 listStartsWith ("GIB").toList ("GIB").toList) = true := by decide
      have ht : unitTier ("GIB") = 3 := by decide
      simp only [c1, c2, c3, if_false, if_true, Bool.false_eq_true, ht]
      norm_num
      try ring
    · have hu : upStr ("MiB") = ("MIB" : String) := by decide
      rw [hu] at hscan ⊢
      refine ⟨by decide, by decide, ?_⟩
      unfold parseSize
      rw [hscan]
      have c1 : (listStartsWith ("KB").toList ("MIB").toList ||
                 listStartsWith ("KIB").toList ("MIB").toList) = false := by decide
      have c2 : (listStartsWith ("MB").toList ("MIB").toList ||
                 listStartsWith ("MIB").toList ("MIB").toList) = true := by decide
      have ht : unitTier ("MIB") = 2 := by decide
      simp only [c1, c2, if_false, if_true, Bool.false_eq_true, ht]
      norm_num
      try ring
    · have hu : upStr ("KiB") = ("KIB" : String) := by decide
      rw [hu] at hscan ⊢
      refine ⟨by decide, by decide, ?_⟩
      unfold parseSize
      rw [hscan]
      have c1 : (listStartsWith ("KB").toList ("KIB").toList ||
                 listStartsWith ("KIB").toList ("KIB").toList) = true := by decide
      have ht : unitTier ("KIB") = 1 := by decide
      simp only [c1, if_true, ht]
      norm_num
      try ring
  · have h : sizeScan (("1.5 GiB") : String).toList =
        some (['1'], some ['5'], ("GIB" : String)) := by decide
    unfold parseSize
    rw [h]
    have c1 : (listStartsWith ("KB").toList ("GIB").toList ||
               listStartsWith ("KIB").toList ("GIB").toList) = false := by decide
    have c2 : (listStartsWith ("MB").toList ("GIB").toList ||
               listStartsWith ("MIB").toList ("GIB").toList) = false := by decide
    have c3 : (listStartsWith ("GB").toList ("GIB").toList ||
               listStartsWith ("GIB").toList ("GIB").toList) = true := by decide
    have d1 : digitsToNat ['1'] = 1 := by decide
    have d2 : digitsToNat ['5'] = 5 := by decide
    simp only [c1, c2, c3, if_false, if_true, Bool.false_eq_true, decimalToRat, d1, d2]
    norm_num
  · have h : sizeScan (("700MB") : String).toList =
        some (['7', '0', '0'], none, ("MB" : String)) := by decide
    unfold parseSize
    rw [h]
    have c1 : (listStartsWith ("KB").toList ("MB").toList ||
               listStartsWith ("KIB").toList ("MB").toList) = false := by decide
    have c2 : (listStartsWith ("MB").toList ("MB").toList ||
               listStartsWith ("MIB").toList ("MB").toList) = true := by decide
    have d1 : digitsToNat ['7', '0', '0'] = 700 := by decide
    simp only [c1, c2, if_false, if_true, Bool.false_eq_true, decimalToRat, d1]
    norm_num
    try ring

/-- C9 witness: the general statement applied to the concrete 1.5 GiB input. -/
theorem c9_witness :
    sizeScan (("1.5 GiB") : String).toList = some (['1'], some ['5'], ("GIB" : String)) ∧
    (1 ≤ unitTier ("GIB") ∧ unitTier ("GIB") ≤ 4 ∧
      parseSize ("1.5 GiB") = some (decimalToRat ['1'] (some ['5']) * 1024 ^ unitTier ("GIB"))) :=
  ⟨by decide, c9_size_binary_multiples.1 ("1.5 GiB") ['1'] (some ['5']) ("GIB") (by decide)⟩

/-- Every entry of `LOW_QUALITY_TERMS` is already uppercase. -/
theorem lq_terms_upfix : ∀ t ∈ LOW_QUALITY_TERMS, upStr t = t := by decide

/-- If the extra source-term test of the elimination filter (line 169 of
addonService.ts) succeeds, the classifier already returned LOW_QUALITY: the
same containment test is the classifier's first guard. -/
theorem lq_term_forces_rank (s : StremioStream)
    (h : (match (s.parsedMeta.bind (fun m => m.qualitySource)).map upStr with
          | some su => LOW_QUALITY_TERMS.any (fun t => jsIncludes su t)
          | none => false) = true) :
    getQualityRank s.parsedMeta = .LOW_QUALITY := by
  cases hpm : s.parsedMeta with
  | none => rw [hpm] at h; simp at h
  | some m =>
    rw [hpm] at h
    simp only [Option.some_bind] at h
    cases hq : m.qualitySource with
    | none => rw [hq] at h; simp at h
    | some q =>
      rw [hq] at h
      have h2 : LOW_QUALITY_TERMS.any (fun t => jsIncludes (upStr q) t) = true := by
        simpa using h
      have hany : sourceHasLQTerm (m.qualitySource.map upStr) = true := by
        rw [hq]
        show sourceHasLQTerm (some (upStr q)) = true
        obtain ⟨t, htm, hj⟩ := List.any_eq_true.mp h2
        exact List.any_eq_true.mpr ⟨t, htm, by rw [lq_terms_upfix t htm]; exact hj⟩
      simp only [getQualityRank, hany, if_true]

/-- The code's elimination predicate agrees pointwise with the claim-modelled
one: the extra source-term test is subsumed by the LOW_QUALITY rank check. -/
theorem lqKeep_eq_spec (s : StremioStream) : lqKeep s = lqKeepSpec s := by
  by_cases h1 : (getQualityRank s.parsedMeta = VideoQualityRank.LOW_QUALITY ∨
                 getQualityRank s.parsedMeta = VideoQualityRank.UNKNOWN)
  · simp only [lqKeep, lqKeepSpec]
    rcases h1 with h | h <;> simp [h]
  · push_neg at h1
    obtain ⟨hn1, hn2⟩ := h1
    cases hterm : (match (s.parsedMeta.bind (fun m => m.qualitySource)).map upStr with
                   | some su => LOW_QUALITY_TERMS.any (fun t => jsIncludes su t)
                   | none => false) with
    | true => exact absurd (lq_term_forces_rank s hterm) hn1
    | false =>
      simp only [lqKeep, lqKeepSpec, hterm]
      cases hres : (s.parsedMeta.bind (fun m => m.resolution)).map upStr with
      | none => simp [hn1, hn2]
      | some ru => simp [hn1, hn2]

/-- C4: under `filterLowQuality`, low-quality elimination activates only when
some candidate remaining after the seeders filter has rank at least HDTV_720P
(otherwise the list passes through unchanged); when active it keeps exactly
the candidates satisfying the claim predicate `lqKeepSpec` (rank neither
LOW_QUALITY nor UNKNOWN, and not a low-quality resolution with rank below
DVD), and a candidate ranked DVD always satisfies that predicate. -/
theorem c4_low_quality_elimination (cfg : AddonConfig) (streams0 : List StremioStream)
    (hflq : cfg.filterLowQuality = true) :
    ((¬ ∃ s ∈ minSeedersFilter cfg streams0,
        rankVal (getQualityRank s.parsedMeta) ≥ rankVal VideoQualityRank.HDTV_720P) →
      lowQualityElim cfg (minSeedersFilter cfg streams0) = minSeedersFilter cfg streams0) ∧
    ((∃ s ∈ minSeedersFilter cfg streams0,
        rankVal (getQualityRank s.parsedMeta) ≥ rankVal VideoQualityRank.HDTV_720P) →
      lowQualityElim cfg (minSeedersFilter cfg streams0) =
        (minSeedersFilter cfg streams0).filter lqKeepSpec) ∧
    (∀ s : StremioStream, getQualityRank s.parsedMeta = VideoQualityRank.DVD →
      lqKeepSpec s = true) := by
  set L := minSeedersFilter cfg streams0 with hL
  refine ⟨?_, ?_, ?_⟩
  · intro hno
    unfold lowQualityElim
    by_cases hlen : L.length > 0
    · rw [if_pos ⟨hflq, hlen⟩]
      rw [if_neg ?hany]
      case hany =>
        intro hc
        obtain ⟨s, hs, hp⟩ := List.any_eq_true.mp hc
        exact hno ⟨s, hs, of_decide_eq_true hp⟩
    · rw [if_neg (fun hc => hlen hc.2)]
  · rintro ⟨s, hs, hrank⟩
    unfold lowQualityElim
    have hlen : L.length > 0 := List.length_pos.mpr (List.ne_nil_of_mem hs)
    rw [if_pos ⟨hflq, hlen⟩]
    rw [if_pos (List.any_eq_true.mpr ⟨s, hs, decide_eq_true hrank⟩)]
    exact List.filter_congr (fun a _ => lqKeep_eq_spec a)
  · intro s h
    simp [lqKeepSpec, h]

/-- C4 witness: a CAM candidate next to a 1080p BluRay sibling under the
enabled filter: the elimination is active, agrees with the claim predicate,
and keeps exactly the BluRay candidate. -/
theorem c4_witness :
    cfgFilterOn.filterLowQuality = true ∧
    (∃ s ∈ minSeedersFilter cfgFilterOn [camStream, blurayStream],
      rankVal (getQualityRank s.parsedMeta) ≥ rankVal VideoQualityRank.HDTV_720P) ∧
    lowQualityElim cfgFilterOn (minSeedersFilter cfgFilterOn [camStream, blurayStream]) =
      (minSeedersFilter cfgFilterOn [camStream, blurayStream]).filter lqKeepSpec ∧
    lowQualityElim cfgFilterOn (minSeedersFilter cfgFilterOn [camStream, blurayStream]) =
      [blurayStream] :=
  ⟨rfl, by decide,
    (c4_low_quality_elimination cfgFilterOn [camStream, blurayStream] rfl).2.1 (by decide),
    by decide⟩

/-- `indexOf` on a missing element returns -1 from any starting count. -/
theorem jsIndexOfGo_not_mem (x : String) (l : List String) (hx : x ∉ l) :
    ∀ i : Nat, jsIndexOfGo x i l = -1 := by
  induction l with
  | nil => intro i; rfl
  | cons y t ih =>
    intro i
    rw [jsIndexOfGo]
    rw [if_neg (fun hyx => hx (by rw [← hyx]; exact List.mem_cons_self y t))]
    exact ih (fun hm => hx (List.mem_cons_of_mem y hm)) (i + 1)

/-- `indexOf` on a present element is non-negative from any non-negative
starting count. -/
theorem jsIndexOfGo_mem_nonneg (x : String) (l : List String) (hx : x ∈ l) :
    ∀ i : Nat, 0 ≤ jsIndexOfGo x i l := by
  induction l with
  | nil => cases hx
  | cons y t ih =>
    intro i
    rw [jsIndexOfGo]
    by_cases hyx : y = x
    · rw [if_pos hyx]; exact Int.natCast_nonneg i
    · rw [if_neg hyx]
      refine ih ?_ (i + 1)
      rcases List.mem_cons.mp hx with h | h
      · exact absurd h.symm hyx
      · exact h

/-- A present element has `indexOf` different from -1. -/
theorem jsIndexOf_mem_ne (x : String) (l : List String) (hx : x ∈ l) :
    jsIndexOf l x ≠ -1 := by
  have := jsIndexOfGo_mem_nonneg x l hx 0
  unfold jsIndexOf
  omega

/-- A missing element has `indexOf` equal to -1. -/
theorem jsIndexOf_not_mem (x : String) (l : List String) (hx : x ∉ l) :
    jsIndexOf l x = -1 :=
  jsIndexOfGo_not_mem x l hx 0

/-- A single-key comparator chain reduces to that key's comparison. -/
theorem compareStreamsGo_single (cfg : AddonConfig) (a b : StremioStream)
    (p : SortPreference) :
    compareStreamsGo cfg a b [p] = cmpByPreference cfg p a b := by
  rw [compareStreamsGo]
  split
  · rfl
  · rename_i hc
    rw [compareStreamsGo]
    omega

/-- C8 (amended): under a Quality-only sort key, for two candidates with parsed
metadata and equal quality rank, the comparator orders them by the position in
`config.qualitySortOrder` of their effective resolution, where a missing
resolution is first replaced by the literal string UNKNOWN: if both effective
resolutions occur in the list the comparison is the index difference (earlier
position wins); one that is absent loses to one that is present; two absent
ones tie.  (The original claim fails because a candidate without any
resolution competes as the string UNKNOWN, which may itself occur in the
list.) -/
theorem c8_quality_tiebreak (cfg : AddonConfig) (a b : StremioStream)
    (ma mb : ParsedMetadata)
    (hpref : cfg.sortPreference = [SortPreference.Quality])
    (ha : a.parsedMeta = some ma) (hb : b.parsedMeta = some mb)
    (hrank : getQualityRank a.parsedMeta = getQualityRank b.parsedMeta) :
    (jsOrStr (ma.resolution.map upStr) ("UNKNOWN") ∈ cfg.qualitySortOrder →
      jsOrStr (mb.resolution.map upStr) ("UNKNOWN") ∈ cfg.qualitySortOrder →
      compareStreams cfg a b =
        jsIndexOf cfg.qualitySortOrder (jsOrStr (ma.resolution.map upStr) ("UNKNOWN")) -
        jsIndexOf cfg.qualitySortOrder (jsOrStr (mb.resolution.map upStr) ("UNKNOWN"))) ∧
    (jsOrStr (ma.resolution.map upStr) ("UNKNOWN") ∉ cfg.qualitySortOrder →
      jsOrStr (mb.resolution.map upStr) ("UNKNOWN") ∈ cfg.qualitySortOrder →
      compareStreams cfg a b = 1) ∧
    (jsOrStr (ma.resolution.map upStr) ("UNKNOWN") ∈ cfg.qualitySortOrder →
      jsOrStr (mb.resolution.map upStr) ("UNKNOWN") ∉ cfg.qualitySortOrder →
      compareStreams cfg a b = -1) ∧
    (jsOrStr (ma.resolution.map upStr) ("UNKNOWN") ∉ cfg.qualitySortOrder →
      jsOrStr (mb.resolution.map upStr) ("UNKNOWN") ∉ cfg.qualitySortOrder →
      compareStreams cfg a b = 0) := by
  have hcs : compareStreams cfg a b = cmpQuality cfg a b := by
    rw [compareStreams, hpref, compareStreamsGo_single]
    rfl
  have hc0 : rankVal (getQualityRank (some mb)) -
      rankVal (getQualityRank (some ma)) = 0 := by
    rw [← ha, ← hb, hrank]
    omega
  have hcq : cmpQuality cfg a b =
      (let resAUpper := jsOrStr (ma.resolution.map upStr) ("UNKNOWN")
       let resBUpper := jsOrStr (mb.resolution.map upStr) ("UNKNOWN")
       let resAIndex := jsIndexOf cfg.qualitySortOrder resAUpper
       let resBIndex := jsIndexOf cfg.qualitySortOrder resBUpper
       if resAIndex ≠ -1 ∧ resBIndex ≠ -1 then resAIndex - resBIndex
       else if resAIndex ≠ -1 then -1
       else if resBIndex ≠ -1 then 1
       else 0) := by
    simp only [cmpQuality, ha, hb]
    rw [if_pos hc0]
  rw [hcs, hcq]
  refine ⟨fun hma hmb => ?_, fun hma hmb => ?_, fun hma hmb => ?_, fun hma hmb => ?_⟩
  · simp only []
    rw [if_pos ⟨jsIndexOf_mem_ne _ _ hma, jsIndexOf_mem_ne _ _ hmb⟩]
  · simp only []
    rw [if_neg (fun hc => (hc.1 (jsIndexOf_not_mem _ _ hma)).elim)]
    rw [if_neg (fun hc => (hc (jsIndexOf_not_mem _ _ hma)).elim)]
    rw [if_pos (jsIndexOf_mem_ne _ _ hmb)]
  · simp only []
    rw [if_neg (fun hc => (hc.2 (jsIndexOf_not_mem _ _ hmb)).elim)]
    rw [if_pos (jsIndexOf_mem_ne _ _ hma)]
  · simp only []
    rw [if_neg (fun hc => (hc.1 (jsIndexOf_not_mem _ _ hma)).elim)]
    rw [if_neg (fun hc => (hc (jsIndexOf_not_mem _ _ hma)).elim)]
    rw [if_neg (fun hc => (hc (jsIndexOf_not_mem _ _ hmb)).elim)]

/-- C8 counterexample: with equal ranks, a candidate with no parsed resolution
competes as the literal UNKNOWN; when UNKNOWN precedes 720P in
`qualitySortOrder` (as in the default configuration, which contains UNKNOWN),
the resolution-less candidate sorts first (comparison -1) instead of losing to
the candidate whose resolution 720P is present in the list. -/
theorem c8_counterexample :
    getQualityRank noResStream.parsedMeta = getQualityRank res720Stream.parsedMeta ∧
    (noResStream.parsedMeta.bind (fun m => m.resolution)) = none ∧
    ("720P") ∈ cfgQualityCex.qualitySortOrder ∧
    compareStreams cfgQualityCex noResStream res720Stream = -1 := by
  decide

/-- C8 witness: two equal-rank candidates whose resolutions 2160P and 4K both
occur in the tie-break list are ordered by index difference: 4K at position 0
beats 2160P at position 1. -/
theorem c8_witness :
    cfgQualityW.sortPreference = [SortPreference.Quality] ∧
    getQualityRank webStream2160.parsedMeta = getQualityRank webStream4K.parsedMeta ∧
    compareStreams cfgQualityW webStream2160 webStream4K =
      jsIndexOf cfgQualityW.qualitySortOrder
        (jsOrStr ((webStream2160.parsedMeta.get rfl).resolution.map upStr) ("UNKNOWN")) -
      jsIndexOf cfgQualityW.qualitySortOrder
        (jsOrStr ((webStream4K.parsedMeta.get rfl).resolution.map upStr) ("UNKNOWN")) :=
  ⟨rfl, by decide,
    (c8_quality_tiebreak cfgQualityW webStream2160 webStream4K _ _ rfl rfl rfl
      (by decide)).1 (by decide) (by decide)⟩

/-- A `Map.set` step never changes the key sequence when the key is present,
and appends the key otherwise. -/
theorem mapSet_keys (acc : List (String × BitmagnetTorrent)) (k : String) (v : BitmagnetTorrent) :
    (mapSet acc k v).map Prod.fst =
      if acc.any (fun p => p.1 = k) then acc.map Prod.fst else acc.map Prod.fst ++ [k] := by
  unfold mapSet
  by_cases h : acc.any (fun p => p.1 = k) = true
  · rw [if_pos h, if_pos h, List.map_map]
    refine List.map_congr_left (fun p _ => ?_)
    by_cases hp : p.1 = k
    · simp [hp]
    · simp [hp]
  · rw [if_neg h, if_neg h]
    simp

/-- Replacement at an absent lookup key leaves `find?` unchanged. -/
theorem find_replace_ne (acc : List (String × BitmagnetTorrent)) (k : String)
    (v : BitmagnetTorrent) (h : String) (hne : h ≠ k) :
    (acc.map (fun p => if p.1 = k then (k, v) else p)).find? (fun p => p.1 = h) =
      acc.find? (fun p => p.1 = h) := by
  induction acc with
  | nil => rfl
  | cons p t ih =>
    rw [List.map_cons, List.find?_cons, List.find?_cons]
    by_cases hp : p.1 = k
    · rw [if_pos hp]
      have h1 : (decide ((k, v).1 = h)) = false := by
        simp only [decide_eq_false_iff_not]
        exact fun hkh => hne hkh.symm
      have h2 : (decide (p.1 = h)) = false := by
        simp only [decide_eq_false_iff_not]
        rw [hp]
        exact fun hkh => hne hkh.symm
      rw [h1, h2]
      exact ih
    · rw [if_neg hp]
      cases hd : decide (p.1 = h) with
      | true => rfl
      | false => exact ih

/-- Replacement at a present lookup key makes `find?` return the new entry. -/
theorem find_replace_eq (acc : List (String × BitmagnetTorrent)) (k : String)
    (v : BitmagnetTorrent) (hany : acc.any (fun p => p.1 = k) = true) :
    (acc.map (fun p => if p.1 = k then (k, v) else p)).find? (fun p => p.1 = k) =
      some (k, v) := by
  induction acc with
  | nil => cases hany
  | cons p t ih =>
    rw [List.map_cons, List.find?_cons]
    by_cases hp : p.1 = k
    · rw [if_pos hp]
      simp
    · rw [if_neg hp]
      have ht : t.any (fun p => p.1 = k) = true := by
        rcases List.any_eq_true.mp hany with ⟨q, hq, hqk⟩
        rcases List.mem_cons.mp hq with rfl | hqt
        · exact absurd (of_decide_eq_true hqk) hp
        · exact List.any_eq_true.mpr ⟨q, hqt, hqk⟩
      have hd : (decide (p.1 = k)) = false := decide_eq_false hp
      rw [hd]
      exact ih ht

/-- The lookup after one `Map.set` step: the set key now maps to the new value,
all other keys are untouched. -/
theorem entryLookup_mapSet (acc : List (String × BitmagnetTorrent)) (k : String)
    (v : BitmagnetTorrent) (h : String) :
    entryLookup (mapSet acc k v) h = if h = k then some v else entryLookup acc h := by
  unfold entryLookup mapSet
  by_cases hany : acc.any (fun p => p.1 = k) = true
  · rw [if_pos hany]
    by_cases hk : h = k
    · subst hk
      rw [if_pos rfl, find_replace_eq acc h v hany]
      rfl
    · rw [if_neg hk, find_replace_ne acc k v h hk]
  · rw [if_neg hany]
    by_cases hk : h = k
    · subst hk
      rw [if_pos rfl, List.find?_append]
      have hnone : acc.find? (fun p => p.1 = h) = none :=
        List.find?_eq_none.mpr (fun x hx hpx => hany
          (List.any_eq_true.mpr ⟨x, hx, hpx⟩))
      rw [hnone]
      simp
    · rw [if_neg hk, List.find?_append]
      have hsingle : ([(k, v)] : List (String × BitmagnetTorrent)).find?
          (fun p => p.1 = h) = none := by
        rw [List.find?_cons]
        have : (decide ((k, v).1 = h)) = false := decide_eq_false (fun hc => hk hc.symm)
        rw [this]
        rfl
      rw [hsingle]
      cases acc.find? (fun p => p.1 = h) <;> rfl

/-- The last record of a cons list with a given hash. -/
theorem lastWith_cons (t : BitmagnetTorrent) (ts : List BitmagnetTorrent) (h : String) :
    lastWith (t :: ts) h =
      if t.infoHash = h then some ((lastWith ts h).getD t) else lastWith ts h := by
  unfold lastWith
  rw [List.filter_cons]
  by_cases hth : t.infoHash = h
  · rw [if_pos (by simpa using hth), if_pos hth]
    rw [List.getLast?_cons]
  · rw [if_neg (by simpa using hth), if_neg hth]

/-- Folding `Map.set` over the raw results: the lookup of any key yields the
last record with that infoHash, falling back to the accumulator. -/
theorem entryLookup_fold (ts : List BitmagnetTorrent) :
    ∀ (acc : List (String × BitmagnetTorrent)) (h : String),
      entryLookup (ts.foldl (fun a t => mapSet a t.infoHash t) acc) h =
        ((lastWith ts h).map some).getD (entryLookup acc h) := by
  induction ts with
  | nil => intro acc h; rfl
  | cons t ts ih =>
    intro acc h
    rw [List.foldl_cons, ih, entryLookup_mapSet, lastWith_cons]
    by_cases hth : t.infoHash = h
    · rw [if_pos hth, if_pos hth.symm]
      cases hlw : lastWith ts h with
      | some u => rfl
      | none => rfl
    · rw [if_neg hth, if_neg (show ¬ h = t.infoHash from fun hc => hth hc.symm)]

/-- Folding `Map.set` produces the keys in order of first occurrence. -/
theorem fold_keys (ts : List BitmagnetTorrent) :
    ∀ acc : List (String × BitmagnetTorrent),
      (ts.foldl (fun a t => mapSet a t.infoHash t) acc).map Prod.fst =
        ts.foldl (fun ks t => if t.infoHash ∈ ks then ks else ks ++ [t.infoHash])
          (acc.map Prod.fst) := by
  induction ts with
  | nil => intro acc; rfl
  | cons t ts ih =>
    intro acc
    rw [List.foldl_cons, List.foldl_cons, ih]
    congr 1
    rw [mapSet_keys]
    have hiff : (acc.any (fun p => p.1 = t.infoHash) = true) ↔
        t.infoHash ∈ acc.map Prod.fst := by
      rw [List.any_eq_true]
      constructor
      · rintro ⟨p, hp, hpk⟩
        exact List.mem_map.mpr ⟨p, hp, of_decide_eq_true hpk⟩
      · rintro hm
        obtain ⟨p, hp, hpk⟩ := List.mem_map.mp hm
        exact ⟨p, hp, decide_eq_true hpk⟩
    by_cases hc : t.infoHash ∈ acc.map Prod.fst
    · rw [if_pos (hiff.mpr hc), if_pos hc]
    · rw [if_neg (fun hx => hc (hiff.mp hx)), if_neg hc]

/-- Folding `Map.set` keeps the key sequence duplicate-free. -/
theorem fold_keys_nodup (ts : List BitmagnetTorrent) :
    ∀ acc : List (String × BitmagnetTorrent), (acc.map Prod.fst).Nodup →
      ((ts.foldl (fun a t => mapSet a t.infoHash t) acc).map Prod.fst).Nodup := by
  induction ts with
  | nil => intro acc h; exact h
  | cons t ts ih =>
    intro acc h
    rw [List.foldl_cons]
    refine ih (mapSet acc t.infoHash t) ?_
    rw [mapSet_keys]
    by_cases hc : acc.any (fun p => p.1 = t.infoHash) = true
    · rw [if_pos hc]; exact h
    · rw [if_neg hc]
      refine List.Nodup.append h (List.nodup_singleton _) ?_
      intro x hx hxs
      rw [List.mem_singleton] at hxs
      subst hxs
      obtain ⟨p, hp, hpk⟩ := List.mem_map.mp hx
      exact hc (List.any_eq_true.mpr ⟨p, hp, decide_eq_true hpk⟩)

/-- Every entry of the folded map pairs a key with a record carrying that key
as its infoHash. -/
theorem fold_entries_wf (ts : List BitmagnetTorrent) :
    ∀ acc : List (String × BitmagnetTorrent),
      (∀ p ∈ acc, (p.2).infoHash = p.1) →
      ∀ p ∈ ts.foldl (fun a t => mapSet a t.infoHash t) acc, (p.2).infoHash = p.1 := by
  induction ts with
  | nil => intro acc h; exact h
  | cons t ts ih =>
    intro acc h
    rw [List.foldl_cons]
    refine ih (mapSet acc t.infoHash t) ?_
    intro p hp
    unfold mapSet at hp
    by_cases hc : acc.any (fun q => q.1 = t.infoHash) = true
    · rw [if_pos hc] at hp
      obtain ⟨q, hq, hfq⟩ := List.mem_map.mp hp
      by_cases hqk : q.1 = t.infoHash
      · rw [if_pos hqk] at hfq
        rw [← hfq]
      · rw [if_neg hqk] at hfq
        rw [← hfq]
        exact h q hq
    · rw [if_neg hc] at hp
      rcases List.mem_append.mp hp with hin | hone
      · exact h p hin
      · rw [List.mem_singleton] at hone
        rw [hone]

/-- With duplicate-free keys, `find?` at a member entry's key returns exactly
that entry. -/
theorem find_of_mem_nodup (E : List (String × BitmagnetTorrent))
    (p : String × BitmagnetTorrent) (hmem : p ∈ E) (hnd : (E.map Prod.fst).Nodup) :
    E.find? (fun q => q.1 = p.1) = some p := by
  induction E with
  | nil => cases hmem
  | cons q t ih =>
    rw [List.find?_cons]
    rw [List.map_cons, List.nodup_cons] at hnd
    rcases List.mem_cons.mp hmem with rfl | hpt
    · rw [decide_eq_true rfl]
    · have hqp : ¬ q.1 = p.1 := by
        intro hc
        exact hnd.1 (hc ▸ List.mem_map.mpr ⟨p, hpt, rfl⟩)
      rw [decide_eq_false hqp]
      exact ih hpt hnd.2

/-- C1 (amended): de-duplication by infoHash keeps exactly one candidate per
infoHash, listed in order of first occurrence of each hash, but the record
kept for a hash is the LAST raw record seen with that hash (JS `Map.set`
overwrites the value of an existing key), not the first. -/
theorem c1_dedup_amended (ts : List BitmagnetTorrent) :
    (uniqueResults ts).map (fun t => t.infoHash) = firstKeys ts ∧
    ∀ t ∈ uniqueResults ts, lastWith ts t.infoHash = some t := by
  constructor
  · unfold uniqueResults firstKeys
    rw [List.map_map]
    have hwf := fold_entries_wf ts [] (by intro p hp; cases hp)
    have hcongr : (ts.foldl (fun a t => mapSet a t.infoHash t) []).map
        ((fun t => t.infoHash) ∘ (fun p : String × BitmagnetTorrent => p.2)) =
        (ts.foldl (fun a t => mapSet a t.infoHash t) []).map Prod.fst :=
      List.map_congr_left (fun p hp => hwf p hp)
    rw [hcongr, fold_keys]
    rfl
  · intro t ht
    unfold uniqueResults at ht
    obtain ⟨p, hpE, hps⟩ := List.mem_map.mp ht
    have hwf := fold_entries_wf ts [] (by intro q hq; cases hq) p hpE
    have hnd := fold_keys_nodup ts [] List.nodup_nil
    have hfind := find_of_mem_nodup _ p hpE hnd
    have hlook : entryLookup (ts.foldl (fun a t => mapSet a t.infoHash t) []) p.1 =
        some p.2 := by
      unfold entryLookup
      rw [hfind]
      rfl
    have hfold := entryLookup_fold ts [] p.1
    rw [hlook] at hfold
    have hkey : t.infoHash = p.1 := by rw [← hps, hwf]
    rw [hkey]
    cases hlw : lastWith ts p.1 with
    | some u =>
      rw [hlw] at hfold
      simp only [Option.map_some', Option.getD_some] at hfold
      rw [← hps]
      exact hfold.symm
    | none =>
      rw [hlw] at hfold
      simp [entryLookup] at hfold

/-- C1 counterexample: two raw records with the same infoHash collapse to one
candidate, but the candidate kept is the second (last-seen) record, not the
first-seen one the claim requires. -/
theorem c1_counterexample :
    uniqueResults [dupTorrentA, dupTorrentB] = [dupTorrentB] ∧ dupTorrentB ≠ dupTorrentA := by
  decide

/-- C1 witness: the amended statement applied to the two-record duplicate list:
the key order is the first-occurrence order and the kept record is the last
one with that hash. -/
theorem c1_witness :
    (uniqueResults [dupTorrentA, dupTorrentB]).map (fun t => t.infoHash) =
      firstKeys [dupTorrentA, dupTorrentB] ∧
    lastWith [dupTorrentA, dupTorrentB] dupTorrentB.infoHash = some dupTorrentB :=
  ⟨(c1_dedup_amended [dupTorrentA, dupTorrentB]).1,
    (c1_dedup_amended [dupTorrentA, dupTorrentB]).2 dupTorrentB (by decide)⟩

/-- Boolean prefix test versus `List.IsPrefix`. -/
theorem listStartsWith_iff : ∀ (p l : List Char), listStartsWith p l = true ↔ p <+: l := by
  intro p
  induction p with
  | nil => intro l; simp [listStartsWith]
  | cons a as ih =>
    intro l
    cases l with
    | nil => simp [listStartsWith]
    | cons b bs =>
      rw [listStartsWith, Bool.and_eq_true, decide_eq_true_eq, List.cons_prefix_cons, ih bs]

/-- `stripLit` succeeds exactly on literal prefixes, returning the remainder. -/
theorem stripLit_some_iff : ∀ (p l r : List Char), stripLit p l = some r ↔ l = p ++ r := by
  intro p
  induction p with
  | nil => intro l r; simp [stripLit]
  | cons a as ih =>
    intro l r
    cases l with
    | nil => simp [stripLit]
    | cons b bs =>
      rw [stripLit]
      by_cases hab : a = b
      · subst hab
        rw [if_pos rfl, ih bs r]
        simp
      · rw [if_neg hab]
        constructor
        · intro hc
          exact absurd hc (by simp)
        · intro hc
          injection hc with h1 h2
          exact absurd h1.symm hab

/-- A scan succeeds exactly when the position predicate holds on some suffix
(for predicates that reject the empty suffix, matching the compiled regexes). -/
theorem scanTest_iff (p : List Char → Bool) (hp : p [] = false) :
    ∀ l, scanTest p l = true ↔ ∃ l₁ l₂, l = l₁ ++ l₂ ∧ p l₂ = true := by
  intro l
  induction l with
  | nil =>
    simp only [scanTest, Bool.false_eq_true, false_iff]
    rintro ⟨l₁, l₂, heq, hpl⟩
    rcases List.append_eq_nil.mp heq.symm with ⟨rfl, rfl⟩
    rw [hp] at hpl
    cases hpl
  | cons c rest ih =>
    rw [scanTest, Bool.or_eq_true, ih]
    constructor
    · rintro (h | ⟨l₁, l₂, rfl, hpl⟩)
      · exact ⟨[], c :: rest, rfl, h⟩
      · exact ⟨c :: l₁, l₂, rfl, hpl⟩
    · rintro ⟨l₁, l₂, heq, hpl⟩
      cases l₁ with
      | nil =>
        left
        rw [List.nil_append] at heq
        rw [heq]
        exact hpl
      | cons d l₁ =>
        right
        injection heq with h1 h2
        exact ⟨l₁, l₂, h2, hpl⟩

/-- Splitting a prefix made of two concatenated parts. -/
theorem prefix_append_split (x y l : List Char) :
    (x ++ y <+: l) ↔ ∃ r, l = x ++ r ∧ y <+: r := by
  constructor
  · rintro ⟨t, ht⟩
    exact ⟨y ++ t, by rw [← ht, List.append_assoc], ⟨t, rfl⟩⟩
  · rintro ⟨r, rfl, ⟨t, ht⟩⟩
    exact ⟨t, by rw [← ht, List.append_assoc]⟩

/-- The episode part of the SE pattern, characterized. -/
theorem episodePart_iff (e : Nat) (r : List Char) :
    episodePart e r = true ↔ ∃ cE r3, r = cE :: r3 ∧ isEChar cE = true ∧
      ∃ ed, (ed = pad2 e ∨ ed = natDigits e) ∧ ed <+: r3 := by
  cases r with
  | nil => simp [episodePart]
  | cons c r3 =>
    rw [episodePart, Bool.and_eq_true, Bool.or_eq_true, listStartsWith_iff, listStartsWith_iff]
    constructor
    · rintro ⟨hE, h1 | h1⟩
      · exact ⟨c, r3, rfl, hE, pad2 e, Or.inl rfl, h1⟩
      · exact ⟨c, r3, rfl, hE, natDigits e, Or.inr rfl, h1⟩
    · rintro ⟨cE, r4, heq, hE, ed, hed, hpre⟩
      injection heq with h1 h2
      subst h1
      subst h2
      refine ⟨hE, ?_⟩
      rcases hed with rfl | rfl
      · exact Or.inl hpre
      · exact Or.inr hpre

/-- One season alternative followed by the episode part, characterized. -/
theorem seasonThen_iff (sd : List Char) (e : Nat) (r : List Char) :
    seasonThen sd e r = true ↔ ∃ r2, r = sd ++ r2 ∧ episodePart e r2 = true := by
  unfold seasonThen
  cases hst : stripLit sd r with
  | none =>
    simp only [Bool.false_eq_true, false_iff]
    rintro ⟨r2, hr, _⟩
    rw [(stripLit_some_iff sd r r2).mpr hr] at hst
    cases hst
  | some r2 =>
    constructor
    · intro h
      exact ⟨r2, (stripLit_some_iff sd r r2).mp hst, h⟩
    · rintro ⟨r3, hr3, hep⟩
      have h2 := (stripLit_some_iff sd r r2).mp hst
      rw [h2] at hr3
      rw [← List.append_cancel_left hr3] at hep
      exact hep

/-- The full SE pattern attempt at one position, characterized. -/
theorem seMatchAt_iff (s e : Nat) (l : List Char) :
    seMatchAt s e l = true ↔
      ∃ cS sd cE ed, isSChar cS = true ∧ (sd = pad2 s ∨ sd = natDigits s) ∧
        isEChar cE = true ∧ (ed = pad2 e ∨ ed = natDigits e) ∧
        (cS :: (sd ++ cE :: ed)) <+: l := by
  cases l with
  | nil =>
    simp only [seMatchAt, Bool.false_eq_true, false_iff]
    rintro ⟨cS, sd, cE, ed, _, _, _, _, hpre⟩
    rw [List.prefix_nil] at hpre
    cases hpre
  | cons c rest =>
    rw [seMatchAt, Bool.and_eq_true, Bool.or_eq_true, seasonThen_iff, seasonThen_iff]
    constructor
    · rintro ⟨hS, h1 | h1⟩ <;>
        obtain ⟨r2, hr2, hep⟩ := h1 <;>
        obtain ⟨cE, r3, rfl, hE, ed, hed, hpre⟩ := (episodePart_iff e r2).mp hep
      · refine ⟨c, pad2 s, cE, ed, hS, Or.inl rfl, hE, hed, ?_⟩
        rw [List.cons_prefix_cons]
        refine ⟨rfl, (prefix_append_split _ _ _).mpr ⟨cE :: r3, hr2, ?_⟩⟩
        rw [List.cons_prefix_cons]
        exact ⟨rfl, hpre⟩
      · refine ⟨c, natDigits s, cE, ed, hS, Or.inr rfl, hE, hed, ?_⟩
        rw [List.cons_prefix_cons]
        refine ⟨rfl, (prefix_append_split _ _ _).mpr ⟨cE :: r3, hr2, ?_⟩⟩
        rw [List.cons_prefix_cons]
        exact ⟨rfl, hpre⟩
    · rintro ⟨cS, sd, cE, ed, hS, hsd, hE, hed, hpre⟩
      rw [List.cons_prefix_cons] at hpre
      obtain ⟨rfl, hpre⟩ := hpre
      obtain ⟨r, hr, hpre2⟩ := (prefix_append_split _ _ _).mp hpre
      cases r with
      | nil =>
        rw [List.prefix_nil] at hpre2
        cases hpre2
      | cons c2 r3 =>
        rw [List.cons_prefix_cons] at hpre2
        obtain ⟨rfl, hed2⟩ := hpre2
        have hepi : episodePart e (cE :: r3) = true := by
          rw [episodePart_iff]
          exact ⟨cE, r3, rfl, hE, ed, hed, hed2⟩
        refine ⟨hS, ?_⟩
        rcases hsd with rfl | rfl
        · exact Or.inl ⟨cE :: r3, hr, hepi⟩
        · exact Or.inr ⟨cE :: r3, hr, hepi⟩

/-- The season-pack attempt at one position, characterized. -/
theorem packMatchAt_iff (s : Nat) (l : List Char) :
    packMatchAt s l = true ↔
      ∃ cS sd r2, l = cS :: (sd ++ r2) ∧ isSChar cS = true ∧
        (sd = pad2 s ∨ sd = natDigits s) ∧ packLookaheadOK r2 = true := by
  cases l with
  | nil => simp [packMatchAt]
  | cons c rest =>
    rw [packMatchAt, Bool.and_eq_true, Bool.or_eq_true]
    constructor
    · rintro ⟨hS, h1 | h1⟩
      · cases hst : stripLit (pad2 s) rest with
        | none => rw [hst] at h1; cases h1
        | some r2 =>
          rw [hst] at h1
          exact ⟨c, pad2 s, r2, by rw [(stripLit_some_iff _ _ _).mp hst], hS, Or.inl rfl, h1⟩
      · cases hst : stripLit (natDigits s) rest with
        | none => rw [hst] at h1; cases h1
        | some r2 =>
          rw [hst] at h1
          exact ⟨c, natDigits s, r2, by rw [(stripLit_some_iff _ _ _).mp hst], hS, Or.inr rfl, h1⟩
    · rintro ⟨cS, sd, r2, heq, hS, hsd, hla⟩
      injection heq with h1 h2
      subst h1
      refine ⟨hS, ?_⟩
      rcases hsd with rfl | rfl
      · left
        rw [h2, (stripLit_some_iff (pad2 s) (pad2 s ++ r2) r2).mpr rfl]
        exact hla
      · right
        rw [h2, (stripLit_some_iff (natDigits s) (natDigits s ++ r2) r2).mpr rfl]
        exact hla

/-- C5 (amended): for an episodic request, a candidate without episodeInfo is
accepted; one with episodeInfo is accepted iff the info CONTAINS (unanchored,
case-insensitive on the S/E markers) an occurrence of S-season-E-episode in
which the season is the padded or plain decimal digits and the digits of the
requested episode (padded or plain) merely PREFIX the following text — there
is no trailing boundary, so S01E23 is accepted for episode 2 — or an
occurrence of S-season not followed by a digit or an E. -/
theorem c5_episode_matcher_amended (epInfo : Option String) (s e : Nat) :
    episodeAccept epInfo s e = true ↔
      (epInfo = none ∨
        ∃ info, epInfo = some info ∧
          ((∃ cS sd cE ed, isSChar cS = true ∧ (sd = pad2 s ∨ sd = natDigits s) ∧
              isEChar cE = true ∧ (ed = pad2 e ∨ ed = natDigits e) ∧
              (cS :: (sd ++ cE :: ed)) <:+: info.toList) ∨
           (∃ pre cS sd r2, info.toList = pre ++ (cS :: (sd ++ r2)) ∧ isSChar cS = true ∧
              (sd = pad2 s ∨ sd = natDigits s) ∧ packLookaheadOK r2 = true))) := by
  cases epInfo with
  | none => simp [episodeAccept]
  | some info =>
    have hred : episodeAccept (some info) s e =
        (sePatternTest s e info || seasonPackTest s info) := rfl
    rw [hred, Bool.or_eq_true]
    simp only [Option.some.injEq, false_or, reduceCtorEq]
    constructor
    · rintro (h | h)
      · refine ⟨info, rfl, Or.inl ?_⟩
        unfold sePatternTest at h
        obtain ⟨l₁, l₂, heq, hp⟩ := (scanTest_iff _ rfl _).mp h
        obtain ⟨cS, sd, cE, ed, h1, h2, h3, h4, ⟨t, ht⟩⟩ := (seMatchAt_iff s e l₂).mp hp
        exact ⟨cS, sd, cE, ed, h1, h2, h3, h4,
          ⟨l₁, t, by rw [List.append_assoc, ht]; exact heq.symm⟩⟩
      · refine ⟨info, rfl, Or.inr ?_⟩
        unfold seasonPackTest at h
        obtain ⟨l₁, l₂, heq, hp⟩ := (scanTest_iff _ rfl _).mp h
        obtain ⟨cS, sd, r2, hl2, h1, h2, h3⟩ := (packMatchAt_iff s l₂).mp hp
        exact ⟨l₁, cS, sd, r2, by rw [heq, hl2], h1, h2, h3⟩
    · rintro ⟨info2, hinfo, h | h⟩
      · subst hinfo
        left
        obtain ⟨cS, sd, cE, ed, h1, h2, h3, h4, ⟨pre, post, hpp⟩⟩ := h
        unfold sePatternTest
        refine (scanTest_iff _ rfl _).mpr
          ⟨pre, (cS :: (sd ++ cE :: ed)) ++ post, by rw [← hpp, List.append_assoc], ?_⟩
        refine (seMatchAt_iff s e _).mpr ⟨cS, sd, cE, ed, h1, h2, h3, h4, ⟨post, rfl⟩⟩
      · subst hinfo
        right
        obtain ⟨pre, cS, sd, r2, hpp, h1, h2, h3⟩ := h
        unfold seasonPackTest
        refine (scanTest_iff _ rfl _).mpr ⟨pre, cS :: (sd ++ r2), hpp, ?_⟩
        exact (packMatchAt_iff s _).mpr ⟨cS, sd, r2, rfl, h1, h2, h3⟩

/-- C5 counterexample: for requested season 1 episode 2, the episode info
S01E23 is neither an exact S1E2 form (padded or not) nor a season pack, so the
claim rejects it; the code accepts it, because the compiled regex has no
boundary after the episode digits and E2 prefixes E23. -/
theorem c5_counterexample :
    episodeAccept (some ("S01E23")) 1 2 = true ∧
    episodeAcceptSpec (some ("S01E23")) 1 2 = false := by
  decide

/-- No word-bounded alternative matches at the end of the text. -/
theorem altMatchAt_nil : ∀ (alts : List (List Char)) (pw : Bool),
    altMatchAt alts pw [] = none := by
  intro alts pw
  induction alts with
  | nil => rfl
  | cons a as ih =>
    simp only [altMatchAt, List.findSome?_cons] at ih ⊢
    cases a with
    | nil => simpa using ih
    | cons c cs =>
      have hcs : ciStartsWith (c :: cs) [] = false := rfl
      simp only [hcs, Bool.and_false, Bool.false_and, List.isEmpty_cons, Bool.false_eq_true,
        if_false, if_neg]
      simpa using ih

/-- Shifting the word-context bit across a cons cell. -/
theorem ctxWordAt_cons (pw : Bool) (c : Char) (rest : List Char) (i : Nat) :
    ctxWordAt pw (c :: rest) (i + 1) = ctxWordAt (isWordChar c) rest i := by
  cases i with
  | zero => rfl
  | succ j => rfl

/-- `prevWordAt` is the start-of-string instance of the context bit. -/
theorem prevWordAt_eq_ctx (l : List Char) (i : Nat) : prevWordAt l i = ctxWordAt false l i := by
  cases i <;> rfl

/-- The scan finds a match exactly at the first position where an alternative
matches: leftmost-match semantics. -/
theorem scanFirst_some_iff (alts : List (List Char)) :
    ∀ (l : List Char) (pw : Bool) (v : List Char),
      scanFirst alts pw l = some v ↔
        ∃ i, altMatchAt alts (ctxWordAt pw l i) (l.drop i) = some v ∧
          ∀ j, j < i → altMatchAt alts (ctxWordAt pw l j) (l.drop j) = none := by
  intro l
  induction l with
  | nil =>
    intro pw v
    constructor
    · intro h; cases h
    · rintro ⟨i, hmatch, _⟩
      rw [List.drop_nil, altMatchAt_nil] at hmatch
      cases hmatch
  | cons c rest ih =>
    intro pw v
    rw [scanFirst]
    cases hm : altMatchAt alts pw (c :: rest) with
    | some w =>
      constructor
      · intro h
        injection h with h1
        exact ⟨0, by rw [h1] at hm; exact hm, fun j hj => absurd hj (Nat.not_lt_zero j)⟩
      · rintro ⟨i, hmatch, hmin⟩
        cases i with
        | zero =>
          have h2 : altMatchAt alts pw (c :: rest) = some v := hmatch
          exact hm.symm.trans h2
        | succ i =>
          have h0 : altMatchAt alts pw (c :: rest) = none := hmin 0 (Nat.succ_pos i)
          rw [h0] at hm
          cases hm
    | none =>
      rw [ih (isWordChar c) v]
      constructor
      · rintro ⟨i, hmatch, hmin⟩
        refine ⟨i + 1, ?_, ?_⟩
        · rw [ctxWordAt_cons]; exact hmatch
        · intro j hj
          cases j with
          | zero => exact hm
          | succ j =>
            rw [ctxWordAt_cons]
            exact hmin j (Nat.lt_of_succ_lt_succ hj)
      · rintro ⟨i, hmatch, hmin⟩
        cases i with
        | zero =>
          have h2 : altMatchAt alts pw (c :: rest) = some v := hmatch
          rw [hm] at h2
          cases h2
        | succ i =>
          refine ⟨i, ?_, ?_⟩
          · rw [ctxWordAt_cons] at hmatch; exact hmatch
          · intro j hj
            have hj1 := hmin (j + 1) (Nat.succ_lt_succ hj)
            rw [ctxWordAt_cons] at hj1
            exact hj1

/-- A failed scan means no position matches. -/
theorem scanFirst_none_all (alts : List (List Char)) :
    ∀ (l : List Char) (pw : Bool), scanFirst alts pw l = none →
      ∀ i, altMatchAt alts (ctxWordAt pw l i) (l.drop i) = none := by
  intro l
  induction l with
  | nil => intro pw _ i; rw [List.drop_nil, altMatchAt_nil]
  | cons c rest ih =>
    intro pw h i
    rw [scanFirst] at h
    cases hm : altMatchAt alts pw (c :: rest) with
    | some w => rw [hm] at h; cases h
    | none =>
      rw [hm] at h
      cases i with
      | zero => exact hm
      | succ i =>
        rw [ctxWordAt_cons]
        exact ih (isWordChar c) h i

/-- C7: the extractor assigns each field at most once.  The resolution pass
never overwrites an already-set resolution; the later quality-source pass
never touches the resolution field and never overwrites an already-set
quality source; and on an unset field the captured value is exactly the
uppercased leftmost word-bounded resolution token of the title: the token at
the first matching position, every earlier position matching nothing. -/
theorem c7_first_match_no_clobber (title : String) (m : ParsedMetadata) :
    (∀ v, m.resolution = some v → (extractResolution title m).resolution = some v) ∧
    (∀ m2 : ParsedMetadata, (extractQualitySource title m2).resolution = m2.resolution) ∧
    (∀ v, m.qualitySource = some v → (extractQualitySource title m).qualitySource = some v) ∧
    (m.resolution = none →
      ∀ v, ((extractResolution title m).resolution = some v ↔
        ∃ i w, tokenMatchAt RESOLUTION_ALTS title i = some w ∧ v = upStr (String.mk w) ∧
          ∀ j, j < i → tokenMatchAt RESOLUTION_ALTS title j = none)) := by
  refine ⟨?_, ?_, ?_, ?_⟩
  · intro v hv
    unfold extractResolution
    cases regexFirstMatch RESOLUTION_ALTS title with
    | none => exact hv
    | some w => simp [hv]
  · intro m2
    unfold extractQualitySource
    cases regexFirstMatch QUALITY_SOURCE_ALTS title with
    | none => rfl
    | some w =>
      by_cases h : m2.qualitySource.isSome = true
      · simp [h]
      · simp [h]
  · intro v hv
    unfold extractQualitySource
    cases regexFirstMatch QUALITY_SOURCE_ALTS title with
    | none => exact hv
    | some w => simp [hv]
  · intro hres v
    unfold extractResolution regexFirstMatch
    cases hsf : scanFirst (RESOLUTION_ALTS.map (fun a => a.toList)) false title.toList with
    | none =>
      simp only [Option.map_none']
      constructor
      · intro h
        rw [hres] at h
        cases h
      · rintro ⟨i, w, hm, _, _⟩
        have hnone := scanFirst_none_all _ title.toList false hsf i
        unfold tokenMatchAt at hm
        rw [prevWordAt_eq_ctx] at hm
        rw [hnone] at hm
        cases hm
    | some w0 =>
      simp only [Option.map_some']
      rw [if_neg (by rw [hres]; simp)]
      show some (upStr (String.mk w0)) = some v ↔ _
      obtain ⟨i0, hm0, hmin0⟩ :=
        (scanFirst_some_iff _ title.toList false w0).mp hsf
      constructor
      · intro h
        injection h with h1
        refine ⟨i0, w0, ?_, h1.symm, ?_⟩
        · unfold tokenMatchAt
          rw [prevWordAt_eq_ctx]
          exact hm0
        · intro j hj
          unfold tokenMatchAt
          rw [prevWordAt_eq_ctx]
          exact hmin0 j hj
      · rintro ⟨i, w, hm, hv, hmin⟩
        unfold tokenMatchAt at hm hmin
        rw [prevWordAt_eq_ctx] at hm
        have hii : i = i0 := by
          rcases Nat.lt_trichotomy i i0 with h | h | h
          · rw [hmin0 i h] at hm
            cases hm
          · exact h
          · have := hmin i0 h
            rw [prevWordAt_eq_ctx] at this
            rw [this] at hm0
            cases hm0
        subst hii
        rw [hm0] at hm
        injection hm with hm
        rw [hv, hm]

/-- C7 witness: a preset resolution survives the pass, and on an unset record
the title A.720p.1080p captures 720P, the leftmost token at position 2 with no
match at positions 0 and 1. -/
theorem c7_witness :
    (extractResolution ("A.720p.1080p")
        { originalTitle := "x", resolution := some ("2160P") }).resolution = some ("2160P") ∧
    ({ originalTitle := "A.720p.1080p" } : ParsedMetadata).resolution = none ∧
    (extractResolution ("A.720p.1080p") { originalTitle := "A.720p.1080p" }).resolution =
      some ("720P") :=
  ⟨(c7_first_match_no_clobber ("A.720p.1080p")
      { originalTitle := "x", resolution := some ("2160P") }).1 ("2160P") rfl,
   rfl,
   ((c7_first_match_no_clobber ("A.720p.1080p")
      { originalTitle := "A.720p.1080p" }).2.2.2 rfl ("720P")).mpr
    ⟨2, ['7', '2', '0', 'p'], by decide, by decide, by decide⟩⟩

end Bitmagnet
